import Mathlib

/-!
Verification development for the litco CURIE normalization-and-merge pipeline.

The Python sources under `src/` are shallowly embedded as Lean definitions:

* Python dicts are association lists `List (key × value)` with insertion
  order preserved; `List.lookup` models `d[k]` / `k in d`.
* Python sets are duplicate-free lists built only through `pySetAdd` /
  `pySetExtend` (membership test before append), compared extensionally via
  `List.toFinset` equality, exactly as `set.==` compares contents.
* Python string comparison (used by `sorted`) is code-point lexicographic
  order, embedded as `lexLe` on `List Char`.
* `sorted(...)` is embedded as `sortOrd`, an insertion sort parameterised
  by a boolean comparator.
* PMIDs are integers (`ℤ`), as produced by `int(...)` / `ast.literal_eval`.
-/

/-! ## Generic modelling primitives -/

/-- Code-point lexicographic comparison of strings, as Python compares
strings (`Char` order in Lean is exactly code-point order). -/
def lexLe : List Char → List Char → Bool
  | [], _ => true
  | _ :: _, [] => false
  | a :: as, b :: bs => if a = b then lexLe as bs else decide (a < b)

/-- Boolean comparator for `String` mirroring Python `str <=`. -/
def strLeB (a b : String) : Bool := lexLe a.data b.data

/-- Boolean comparator for `ℤ` mirroring Python `int <=`. -/
def intLe (a b : ℤ) : Bool := decide (a ≤ b)

/-- Ordered insertion, the auxiliary step of `sortOrd`. -/
def insertOrd {α : Type} (le : α → α → Bool) (x : α) : List α → List α
  | [] => [x]
  | y :: ys => if le x y then x :: y :: ys else y :: insertOrd le x ys

/-- Insertion sort with a boolean comparator; embeds Python `sorted`. -/
def sortOrd {α : Type} (le : α → α → Bool) (l : List α) : List α :=
  l.foldr (insertOrd le) []

/-- Python `set.add`: append the element unless already present. -/
def pySetAdd {α : Type} [DecidableEq α] (s : List α) (x : α) : List α :=
  if x ∈ s then s else s ++ [x]

/-- Python `set.update(xs)` (also `set(xs)` when `s = []`). -/
def pySetExtend {α : Type} [DecidableEq α] (s : List α) (xs : List α) : List α :=
  xs.foldl pySetAdd s

/-- Sorting a list of publication integers, as Python `sorted` on a set of
ints. -/
def sortInt (l : List ℤ) : List ℤ := sortOrd intLe l

/-- Sorting a list of identifier strings, as Python `sorted` on a set or
list of strings. -/
def sortStr (l : List String) : List String := sortOrd strLeB l

/-! ## Output records and the in-memory merge path (normalization.py) -/

/-- Output record shape written by `convert_to_output_format` and by the
streaming cleaners: fields `curie`, `original_curies`, `publications`. -/
structure Record where
  curie : String
  original_curies : List String
  publications : List String
deriving DecidableEq

/-- Serialization of one PMID integer, Python `f"PMID:{pmid}"`. -/
def pmidCurie (p : ℤ) : String := "PMID:" ++ toString p

/-- One `merged_data[normalized_curie].update(pmids)` step on the
`defaultdict(set)` of normalization.py line 178; a missing key starts from
the empty set, as `defaultdict` does, and new keys are appended in
insertion order. -/
def dictAddPubs : List (String × List ℤ) → String → List ℤ → List (String × List ℤ)
  | [], k, ps => [(k, pySetExtend [] ps)]
  | e :: rest, k, ps =>
    if e.1 = k then (e.1, pySetExtend e.2 ps) :: rest else e :: dictAddPubs rest k ps

/-- One `original_curies_by_normalized[normalized_curie].append(original_curie)`
step on the `defaultdict(list)` of normalization.py line 179. -/
def dictAddOrig : List (String × List String) → String → String → List (String × List String)
  | [], k, v => [(k, [v])]
  | e :: rest, k, v =>
    if e.1 = k then (e.1, e.2 ++ [v]) :: rest else e :: dictAddOrig rest k v

/-- Loop of `merge_normalized_data` (normalization.py lines 175-181): rows
whose candidate has a normalization entry contribute their pmids and the
candidate itself; rows without one are skipped. -/
def mergeLoop (nm : List (String × String)) :
    List (String × List ℤ) →
    List (String × List ℤ) × List (String × List String) →
    List (String × List ℤ) × List (String × List String)
  | [], acc => acc
  | kv :: rest, acc =>
    match List.lookup kv.1 nm with
    | some n => mergeLoop nm rest (dictAddPubs acc.1 n kv.2, dictAddOrig acc.2 n kv.1)
    | none => mergeLoop nm rest acc

/-- merge_normalized_data (normalization.py lines 166-184). -/
def merge_normalized_data (curie_to_pmids : List (String × List ℤ))
    (normalized_mapping : List (String × String)) :
    List (String × List ℤ) × List (String × List String) :=
  mergeLoop normalized_mapping curie_to_pmids ([], [])

/-- convert_to_output_format (normalization.py lines 187-205): per merged
entry, sort and PMID-prefix the publication set and sort the contributing
original curies, then sort the records by curie. -/
def convert_to_output_format (merged_data : List (String × List ℤ))
    (original_curies_by_normalized : List (String × List String)) : List Record :=
  sortOrd (fun a b => strLeB a.curie b.curie)
    (merged_data.map (fun kv =>
      { curie := kv.1
        original_curies := sortStr ((List.lookup kv.1 original_curies_by_normalized).getD [])
        publications := (sortInt kv.2).map pmidCurie }))

/-- Composition of the two in-memory steps, as run by OmniCorpCleaner.clean
(clean_omnicorp.py lines 176-179). -/
def pipelineOutput (ctp : List (String × List ℤ)) (nm : List (String × String)) :
    List Record :=
  convert_to_output_format (merge_normalized_data ctp nm).1 (merge_normalized_data ctp nm).2

/-- Rows of the input whose candidate the normalization mapping sends to
`c` (specification-level description of the merge). -/
def contributors (ctp : List (String × List ℤ)) (nm : List (String × String))
    (c : String) : List (String × List ℤ) :=
  ctp.filter (fun kv => List.lookup kv.1 nm == some c)

/-- Concatenation of the publication lists of a row list. -/
def pubsOf (l : List (String × List ℤ)) : List ℤ :=
  l.foldr (fun kv acc => kv.2 ++ acc) []

/-- Running union (as a Python set) of the publication lists of `l`,
starting from the set `init`. -/
def pubsAccum (init : List ℤ) (l : List (String × List ℤ)) : List ℤ :=
  l.foldl (fun acc kv => pySetExtend acc kv.2) init

/-- Specification-level record for canonical identifier `c`: the sorted
contributing candidates and the sorted, deduplicated, PMID-prefixed union
of their publication lists. -/
def mergedRecord (ctp : List (String × List ℤ)) (nm : List (String × String))
    (c : String) : Record :=
  { curie := c
    original_curies := sortStr ((contributors ctp nm c).map Prod.fst)
    publications := (sortInt (pubsOf (contributors ctp nm c)).dedup).map pmidCurie }

/-! ## PubTator candidate construction (clean_pubtator.py) -/

/-- Python `str.lower()` (ASCII case mapping, which covers the entity-type
strings the source compares against). -/
def lowerStr (s : String) : String := String.mk (s.data.map Char.toLower)

/-- Python `str.upper()` (ASCII case mapping). -/
def upperStr (s : String) : String := String.mk (s.data.map Char.toUpper)

/-- PubTatorCleaner.convert_concept_id_to_curie (clean_pubtator.py lines
49-95); the statistics counters are elided. Pythonisms: `not
concept_id.strip()` is the all-whitespace (or empty) test; `":" in
concept_id` is character membership; `str.isdigit()` is the nonempty
all-digits test; `concept_id.replace("CVCL_", "CLO:", 1)` rewrites the
leading occurrence that the `startswith` guard guarantees. -/
def convert_concept_id_to_curie (concept_id : String) (entity_type : String) :
    Option String :=
  if concept_id = "-" ∨ concept_id.data.all Char.isWhitespace then none
  else if ':' ∈ concept_id.data then some concept_id
  else if concept_id.data ≠ [] ∧ concept_id.data.all Char.isDigit then
    if lowerStr entity_type = "species" then some ("NCBITaxon:" ++ concept_id)
    else if lowerStr entity_type = "gene" then some ("NCBIGene:" ++ concept_id)
    else if lowerStr entity_type = "disease" then some ("OMIM:" ++ concept_id)
    else if lowerStr entity_type = "chemical" then
      some ("UNKNOWN_CHEMICAL:" ++ concept_id)
    else some ("UNKNOWN_" ++ upperStr entity_type ++ ":" ++ concept_id)
  else if "CVCL_".data.isPrefixOf concept_id.data then
    some ("CLO:" ++ String.mk (concept_id.data.drop 5))
  else some concept_id

/-! ## Retrying API client (normalization.py, RobustAPIClient) -/

/-- RobustAPIClient.post_with_retry (normalization.py lines 33-62) viewed
from loop index `i`. The remote call is an oracle `attempt : Nat → Option α`
(`none` = Timeout / HTTPError / RequestException, all caught and retried
alike); `jitter i` is the value `random.uniform(0, delay * 0.1)` draws
before the sleep that follows failed attempt `i`. The result is the final
outcome (`none` models the terminal `raise` after the loop) together with
the list of sleep durations, in order. -/
def post_with_retry_from {α : Type} (max_retries : Nat) (base_delay max_delay : ℚ)
    (attempt : Nat → Option α) (jitter : Nat → ℚ) (i : Nat) : Option α × List ℚ :=
  if _h : i < max_retries then
    match attempt i with
    | some v => (some v, [])
    | none =>
      if i < max_retries - 1 then
        let delay := min (base_delay * 2 ^ i) max_delay
        let rest := post_with_retry_from max_retries base_delay max_delay attempt jitter (i + 1)
        (rest.1, (delay + jitter i) :: rest.2)
      else
        post_with_retry_from max_retries base_delay max_delay attempt jitter (i + 1)
  else (none, [])
termination_by max_retries - i
decreasing_by all_goals omega

/-- RobustAPIClient.post_with_retry: the loop starts at attempt 0. -/
def post_with_retry {α : Type} (max_retries : Nat) (base_delay max_delay : ℚ)
    (attempt : Nat → Option α) (jitter : Nat → ℚ) : Option α × List ℚ :=
  post_with_retry_from max_retries base_delay max_delay attempt jitter 0

/-! ## CURIE normalizer (normalization.py, CurieNormalizer) -/

/-- Mutable state of a CurieNormalizer: the `failed_normalizations` dict
(candidate → pmids) and the `normalized_biolink_classes` dict
(canonical identifier → biolink type tags). -/
structure NormState where
  failed_normalizations : List (String × List ℤ)
  normalized_biolink_classes : List (String × List String)
deriving DecidableEq

/-- Python dict assignment `d[k] = v`: overwrite the entry in place, or
append a new one. -/
def dictSet {β : Type} : List (String × β) → String → β → List (String × β)
  | [], k, v => [(k, v)]
  | e :: rest, k, v => if e.1 = k then (k, v) :: rest else e :: dictSet rest k v

/-- Failure tracking (normalization.py lines 111-113, 116-118, 126-128): a
candidate is recorded in `failed_normalizations` only when the caller
supplied pmid data for it. -/
def recordFail (pmid_data : List (String × List ℤ)) (st : NormState)
    (c : String) : NormState :=
  match List.lookup c pmid_data with
  | some ps => { st with failed_normalizations := dictSet st.failed_normalizations c ps }
  | none => st

/-- Loop body of CurieNormalizer.normalize_curies over one candidate of the
batch (normalization.py lines 98-119). The response is a function giving,
per candidate, `none` when the candidate is absent from the response (or
its entry is falsy), and otherwise the optional `id.identifier` string and
the `type` tag list. A present but empty identifier string is falsy in
Python, hence also a failure. -/
def normalizeOne (r : String → Option (Option String × List String))
    (pmid_data : List (String × List ℤ))
    (acc : List (String × String) × NormState) (c : String) :
    List (String × String) × NormState :=
  match r c with
  | some (some nid, biolink_types) =>
    if nid ≠ "" then
      let classes :=
        if biolink_types ≠ [] then
          dictSet acc.2.normalized_biolink_classes nid biolink_types
        else acc.2.normalized_biolink_classes
      (dictSet acc.1 c nid, { acc.2 with normalized_biolink_classes := classes })
    else (acc.1, recordFail pmid_data acc.2 c)
  | some (none, _) => (acc.1, recordFail pmid_data acc.2 c)
  | none => (acc.1, recordFail pmid_data acc.2 c)

/-- CurieNormalizer.normalize_curies (normalization.py lines 83-129). A
successful remote call (`resp = some r`) folds over the batch; a call whose
retries were exhausted (`resp = none`, the caught exception of lines
123-129) contributes no mappings and marks every batch candidate with pmid
data as failed. -/
def normalize_curies (resp : Option (String → Option (Option String × List String)))
    (curies : List String) (pmid_data : List (String × List ℤ))
    (st : NormState) : List (String × String) × NormState :=
  match resp with
  | some r => curies.foldl (normalizeOne r pmid_data) ([], st)
  | none => ([], curies.foldl (recordFail pmid_data) st)

/-- Fixed-size batches: Python `all_curies[i:i + batch_size]` for `i` in
`range(0, len(all_curies), batch_size)` (a zero batch size raises in
Python and yields no batches here). -/
def batchesOf {α : Type} (bs : Nat) (l : List α) : List (List α) :=
  match l with
  | [] => []
  | x :: xs =>
    if _h2 : bs = 0 then []
    else (x :: xs).take bs :: batchesOf bs ((x :: xs).drop bs)
termination_by l.length
decreasing_by
  simp only [List.length_drop, List.length_cons]
  omega

/-- Python `normalized_mapping.update(batch_mapping)`. -/
def dictUpdate {β : Type} (m1 m2 : List (String × β)) : List (String × β) :=
  m2.foldl (fun m kv => dictSet m kv.1 kv.2) m1

/-- Batch loop of CurieNormalizer.normalize_all_curies (normalization.py
lines 137-141); the oracle gives each batch's remote response (or `none`
for a batch whose retries were exhausted). -/
def runBatches
    (oracle : List String → Option (String → Option (Option String × List String)))
    (curie_to_pmids : List (String × List ℤ)) :
    List (List String) → List (String × String) × NormState →
    List (String × String) × NormState
  | [], acc => acc
  | b :: rest, acc =>
    let r := normalize_curies (oracle b) b curie_to_pmids acc.2
    runBatches oracle curie_to_pmids rest (dictUpdate acc.1 r.1, r.2)

/-- CurieNormalizer.normalize_all_curies (normalization.py lines 131-143)
on a fresh normalizer state. -/
def normalize_all_curies
    (oracle : List String → Option (String → Option (Option String × List String)))
    (curie_to_pmids : List (String × List ℤ)) (batch_size : Nat) :
    List (String × String) × NormState :=
  runBatches oracle curie_to_pmids
    (batchesOf batch_size (curie_to_pmids.map Prod.fst)) ([], ⟨[], []⟩)

/-- A candidate succeeds against a response when the response carries a
non-empty canonical identifier for it. -/
def apiSuccess : Option (String → Option (Option String × List String)) →
    String → Prop
  | some r, c =>
    match r c with
    | some (some nid, _) => nid ≠ ""
    | some (none, _) => False
    | none => False
  | none, _ => False

/-- Whether processing candidate `c` writes the tag entry of canonical
identifier `n`: the response must carry canonical identifier `n` for `c`
and a non-empty tag list. -/
def writesTag (r : String → Option (Option String × List String))
    (n : String) (c : String) : Bool :=
  match r c with
  | some (some nid, types) => decide (nid ≠ "") && decide (nid = n) && decide (types ≠ [])
  | some (none, _) => false
  | none => false

/-- Tag list of the last candidate of the batch that writes canonical
identifier `n`'s entry, if any. -/
def lastTagWriter (r : String → Option (Option String × List String))
    (n : String) (curies : List String) : Option (List String) :=
  match (curies.filter (writesTag r n)).getLast? with
  | some c =>
    match r c with
    | some (_, types) => some types
    | none => none
  | none => none

/-! ## Two-pass streaming cleaner (sqlite_cleaner.py, clean_pubtator.py) -/

/-- Inverted mapping entry: the Python-set of original curies that map to
normalized curie `n` (sqlite_cleaner.py lines 130-132, the
`normalized_to_originals` defaultdict built by `.add`). -/
def expectedOriginals (nm : List (String × String)) (n : String) : List String :=
  nm.foldl (fun acc kv => if kv.2 = n then pySetAdd acc kv.1 else acc) []

/-- Keys of the inverted mapping, in insertion order: the distinct
normalized curies, used to initialize the progress tracker
(sqlite_cleaner.py lines 137-139). -/
def nmValues (nm : List (String × String)) : List String :=
  nm.foldl (fun acc kv => pySetAdd acc kv.2) []

/-- State of streaming Pass 2: the progress tracker
normalized curie → (seen_originals, accumulated pmids), the records written
to the output file so far, and whether an uncaught exception aborted the
loop. -/
structure StreamState where
  tracker : List (String × (List String × List ℤ))
  emitted : List Record
  crashed : Bool
deriving DecidableEq

/-- In-place update of one tracker entry (the Python code mutates the set
objects stored under the key, leaving the dict itself unchanged). -/
def writeKey {β : Type} (m : List (String × β)) (k : String) (v : β) :
    List (String × β) :=
  m.map (fun e => if e.1 = k then (k, v) else e)

/-- Python `del d[k]`. -/
def delKey {β : Type} (m : List (String × β)) (k : String) : List (String × β) :=
  m.filter (fun e => !(e.1 == k))

/-- Pass 2 loop body of SQLiteCleaner.clean (sqlite_cleaner.py lines
150-170) for one source row (original_curie, pmids). Rows whose candidate
has no normalization entry are skipped (line 151). Looking up the tracker
entry of an already-deleted normalized curie raises KeyError, which is
uncaught in this cleaner: the crashed flag stops the loop, and the output
file keeps the records already written. -/
def sqliteStep (nm : List (String × String)) (st : StreamState)
    (row : String × List ℤ) : StreamState :=
  if st.crashed then st
  else
    match List.lookup row.1 nm with
    | none => st
    | some normalized_curie =>
      match List.lookup normalized_curie st.tracker with
      | none => { st with crashed := true }
      | some (seen_originals, accumulated_pmids) =>
        let seen2 := pySetAdd seen_originals row.1
        let acc2 := pySetExtend accumulated_pmids row.2
        if seen2.toFinset = (expectedOriginals nm normalized_curie).toFinset then
          { tracker := delKey st.tracker normalized_curie
            emitted := st.emitted ++
              [{ curie := normalized_curie
                 original_curies := sortStr (expectedOriginals nm normalized_curie)
                 publications := (sortInt acc2).map pmidCurie }]
            crashed := false }
        else
          { st with tracker := writeKey st.tracker normalized_curie (seen2, acc2) }

/-- Initial Pass 2 state: one (set(), set()) tracker entry per normalized
curie, nothing written. -/
def initStream (nm : List (String × String)) : StreamState :=
  { tracker := (nmValues nm).map (fun n => (n, ([], [])))
    emitted := []
    crashed := false }

/-- Pass 2 of SQLiteCleaner.clean over the source rows (the LIMIT/OFFSET
chunking does not change per-row processing). -/
def sqlitePass2 (nm : List (String × String)) (rows : List (String × List ℤ)) :
    StreamState :=
  rows.foldl (sqliteStep nm) (initStream nm)

/-- Pass 2 loop body of PubTatorCleaner.process_file_streaming_chunked
(clean_pubtator.py lines 205-253) for one parsed line (curie, pmid). The
whole body runs inside `try/except Exception` (line 252), so the KeyError
raised on the tracker lookup of an already-emitted normalized curie is
caught and logged: the line is skipped and its pmid dropped. -/
def pubtatorStep (nm : List (String × String)) (st : StreamState)
    (row : String × ℤ) : StreamState :=
  match List.lookup row.1 nm with
  | none => st
  | some normalized_curie =>
    match List.lookup normalized_curie st.tracker with
    | none => st
    | some (seen_originals, accumulated_pmids) =>
      let seen2 := pySetAdd seen_originals row.1
      let acc2 := pySetAdd accumulated_pmids row.2
      if seen2.toFinset = (expectedOriginals nm normalized_curie).toFinset then
        { tracker := delKey st.tracker normalized_curie
          emitted := st.emitted ++
            [{ curie := normalized_curie
               original_curies := sortStr (expectedOriginals nm normalized_curie)
               publications := (sortInt acc2).map pmidCurie }]
          crashed := false }
      else
        { st with tracker := writeKey st.tracker normalized_curie (seen2, acc2) }

/-- Pass 2 of PubTatorCleaner over the parsed (curie, pmid) lines. -/
def pubtatorPass2 (nm : List (String × String)) (rows : List (String × ℤ)) :
    StreamState :=
  rows.foldl (pubtatorStep nm) (initStream nm)

/-- Invariant of streaming Pass 2 after processing the prefix `p` of the
source: no crash; the tracker holds, for exactly the incomplete normalized
curies, the candidates and publication union contributed by `p`; and the
records written are exactly those of the completed normalized curies. -/
def streamInv (nm : List (String × String)) (p : List (String × List ℤ))
    (S : StreamState) : Prop :=
  S.crashed = false ∧
  (∀ n, List.lookup n S.tracker =
    if n ∈ nmValues nm ∧
       ¬ ((contributors p nm n).map Prod.fst).toFinset =
         (expectedOriginals nm n).toFinset
    then some ((contributors p nm n).map Prod.fst,
               pubsAccum [] (contributors p nm n))
    else none) ∧
  (∀ rec : Record, rec ∈ S.emitted ↔ ∃ n, n ∈ nmValues nm ∧
    ((contributors p nm n).map Prod.fst).toFinset =
      (expectedOriginals nm n).toFinset ∧
    rec = { curie := n
            original_curies := sortStr (expectedOriginals nm n)
            publications := (sortInt (pubsAccum [] (contributors p nm n))).map
              pmidCurie })

/-! ## OmniCorp IRI-to-CURIE conversion (clean_omnicorp.py lines 57-78,
omnicorp_to_sqlite.py lines 54-183) -/

/-- ASCII uppercase letter, the character class `[A-Z]` of the source's
regular expressions. -/
def isUpperAZ (c : Char) : Bool := 'A'.val ≤ c.val && c.val ≤ 'Z'.val

/-- The character class `[A-Z0-9_]` of the PR regular expression. -/
def isPRChar (c : Char) : Bool := isUpperAZ c || c.isDigit || c == '_'

/-- Python substring test `t in s`. -/
def hasSub : List Char → List Char → Bool
  | [], t => t.isEmpty
  | c :: rest, t => t.isPrefixOf (c :: rest) || hasSub rest t

/-- Python `s.replace(old, new)` (all non-overlapping occurrences, left to
right), with the scan bounded by `s.length` steps; since every step consumes
at least one character of `s` when `old` is nonempty (the source only
replaces nonempty literals), the bound is never hit. -/
def replaceAllFuel (old new : List Char) : ℕ → List Char → List Char
  | 0, s => s
  | _ + 1, [] => []
  | fuel + 1, c :: rest =>
    if old ≠ [] ∧ old.isPrefixOf (c :: rest) then
      new ++ replaceAllFuel old new fuel ((c :: rest).drop old.length)
    else c :: replaceAllFuel old new fuel rest

def replaceAll (old new s : List Char) : List Char :=
  replaceAllFuel old new s.length s

/-- The part of `s` after the last occurrence of `sep` under Python's
left-to-right non-overlapping split, i.e. `s.split(sep)[-1]` when `sep`
occurs in `s` (`none` otherwise); fuel-bounded like `replaceAllFuel`. -/
def afterLastFuel (sep : List Char) : ℕ → List Char → Option (List Char)
  | 0, _ => none
  | _ + 1, [] => none
  | fuel + 1, c :: rest =>
    if sep ≠ [] ∧ sep.isPrefixOf (c :: rest) then
      match afterLastFuel sep fuel ((c :: rest).drop sep.length) with
      | some r => some r
      | none => some ((c :: rest).drop sep.length)
    else afterLastFuel sep fuel rest

/-- Python `s.split(sep)[-1]`: the whole string when `sep` does not occur. -/
def afterLast (sep s : List Char) : List Char :=
  (afterLastFuel sep s.length s).getD s

/-- `re.search`: try the matcher at every start position, leftmost first. -/
def searchPos {α : Type} (m : List Char → Option α) : List Char → Option α
  | [] => m []
  | c :: rest =>
    match m (c :: rest) with
    | some r => some r
    | none => searchPos m rest

/-- Matcher for a literal followed by a nonempty greedy run of characters
satisfying `p` (the regular-expression shape `literal(X+)` with `X` a
character class and nothing after the group, so the greedy run is maximal);
returns the captured run. -/
def litThenRun (lit : List Char) (p : Char → Bool) (s : List Char) :
    Option (List Char) :=
  if lit.isPrefixOf s then
    let run := (s.drop lit.length).takeWhile p
    if run.isEmpty then none else some run
  else none

/-- Matcher for `purl\.obolibrary\.org/obo/([A-Z]+)_(\d+)` at one start
position. The greedy `[A-Z]+` must be the maximal uppercase run: any shorter
run leaves an uppercase character where the `_` is required, so backtracking
cannot succeed; `\d+` is final and therefore maximal. -/
def oboMatch (s : List Char) : Option (List Char × List Char) :=
  if ("purl.obolibrary.org/obo/".data).isPrefixOf s then
    let t := s.drop ("purl.obolibrary.org/obo/".data).length
    let letters := t.takeWhile isUpperAZ
    if letters.isEmpty then none
    else
      match t.dropWhile isUpperAZ with
      | '_' :: t2 =>
        let digits := t2.takeWhile Char.isDigit
        if digits.isEmpty then none else some (letters, digits)
      | _ => none
  else none

/-- OmniCorpCleaner.convert_iri_to_curie (clean_omnicorp.py lines 57-78):
CHEBI and MESH by literal containment and replacement, other OBO terms by
regular-expression search; an unmatched IRI is logged and returned
unchanged (this variant keeps no unknown-pattern set). -/
def OmniCorpCleaner.convert_iri_to_curie (iri : String) : String :=
  if hasSub iri.data "purl.obolibrary.org/obo/CHEBI_".data then
    String.mk (replaceAll "http://purl.obolibrary.org/obo/CHEBI_".data
      "CHEBI:".data iri.data)
  else if hasSub iri.data "id.nlm.nih.gov/mesh/".data then
    String.mk (replaceAll "http://id.nlm.nih.gov/mesh/".data
      "MESH:".data iri.data)
  else
    match searchPos oboMatch iri.data with
    | some (letters, digits) => String.mk (letters ++ ':' :: digits)
    | none => iri

/-- OmniCorpToSQLiteConverter.convert_iri_to_curie (omnicorp_to_sqlite.py
lines 54-183), threading the `unknown_iris` set explicitly; the
`stats['iri_conversions']` counters are elided as pure logging. An
unmatched IRI is returned unchanged and added to `unknown_iris`. -/
def OmniCorpToSQLiteConverter.convert_iri_to_curie (iri : String)
    (unknown_iris : List String) : String × List String :=
  if hasSub iri.data "purl.obolibrary.org/obo/CHEBI_".data then
    (String.mk (replaceAll "http://purl.obolibrary.org/obo/CHEBI_".data
      "CHEBI:".data iri.data), unknown_iris)
  else if hasSub iri.data "id.nlm.nih.gov/mesh/".data then
    (String.mk (replaceAll "http://id.nlm.nih.gov/mesh/".data
      "MESH:".data iri.data), unknown_iris)
  else
    match searchPos oboMatch iri.data with
    | some (letters, digits) =>
      (String.mk (letters ++ ':' :: digits), unknown_iris)
    | none =>
    match searchPos
        (litThenRun "purl.obolibrary.org/obo/NCBITaxon_".data Char.isDigit)
        iri.data with
    | some digits => (String.mk ("NCBITaxon:".data ++ digits), unknown_iris)
    | none =>
    match searchPos
        (litThenRun "purl.obolibrary.org/obo/NCIT_C".data Char.isDigit)
        iri.data with
    | some digits => (String.mk ("NCIT:C".data ++ digits), unknown_iris)
    | none =>
    match searchPos
        (litThenRun "purl.obolibrary.org/obo/PR_".data isPRChar) iri.data with
    | some code => (String.mk ("PR:".data ++ code), unknown_iris)
    | none =>
    if hasSub iri.data "dictybase.org/gene/".data then
      (String.mk ("dictyBase:".data ++ afterLast "/gene/".data iri.data),
       unknown_iris)
    else if hasSub iri.data "flybase.org/reports/".data then
      (String.mk ("FB:".data ++ afterLast "/reports/".data iri.data),
       unknown_iris)
    else if hasSub iri.data "identifiers.org/hgnc/".data then
      (String.mk ("HGNC:".data ++ afterLast "/hgnc/".data iri.data),
       unknown_iris)
    else
    match searchPos
        (litThenRun "genenames.org/cgi-bin/gene_symbol_report?hgnc_id=".data
          Char.isDigit) iri.data with
    | some digits => (String.mk ("HGNC:".data ++ digits), unknown_iris)
    | none =>
    match searchPos
        (litThenRun "genenames.org/data/gene-symbol-report/#!/hgnc_id/HGNC:".data
          Char.isDigit) iri.data with
    | some digits => (String.mk ("HGNC:".data ++ digits), unknown_iris)
    | none =>
    match searchPos
        (litThenRun "rgd.mcw.edu/rgdweb/report/gene/main.html?id=".data
          Char.isDigit) iri.data with
    | some digits => (String.mk ("RGD:".data ++ digits), unknown_iris)
    | none =>
    if hasSub iri.data "ebi.ac.uk/efo/EFO_".data then
      (String.mk ("EFO:".data ++ afterLast "/EFO_".data iri.data),
       unknown_iris)
    else if hasSub iri.data "informatics.jax.org/marker/MGI:".data then
      (String.mk (afterLast "/marker/".data iri.data), unknown_iris)
    else if hasSub iri.data "ncbi.nlm.nih.gov/gene/".data then
      (String.mk ("NCBIGene:".data ++ afterLast "/gene/".data iri.data),
       unknown_iris)
    else
    match searchPos
        (litThenRun "orpha.net/ORDO/Orphanet_".data Char.isDigit) iri.data with
    | some digits => (String.mk ("orphanet:".data ++ digits), unknown_iris)
    | none =>
    match searchPos
        (litThenRun "wormbase.org/species/c_elegans/gene/WBGene".data
          Char.isDigit) iri.data with
    | some digits =>
      (String.mk ("WormBase:WBGene".data ++ digits), unknown_iris)
    | none =>
    if hasSub iri.data "yeastgenome.org/locus/".data then
      (String.mk ("SGD:".data ++ afterLast "/locus/".data iri.data),
       unknown_iris)
    else if hasSub iri.data "zfin.org/action/marker/view/".data then
      (String.mk ("ZFIN:".data ++ afterLast "/view/".data iri.data),
       unknown_iris)
    else
      (iri, pySetAdd unknown_iris iri)

/-! ## Failure side-channel output (sqlite_cleaner.py lines 104-116,
clean_omnicorp.py lines 147-159, normalization.py lines 145-151, 208-224) -/

/-- A Python value crossing the untyped boundary between
`get_failed_normalizations` (which returns a list of keys) and
`convert_failed_to_output_format` (which expects a dict and calls
`.items()` on its argument). -/
inductive PyVal where
  | pyList (items : List String)
  | pyDict (entries : List (String × List ℤ))

/-- CurieNormalizer.get_failed_normalizations (normalization.py lines
145-147): `list(self.failed_normalizations.keys())` — a list, not a dict. -/
def get_failed_normalizations (failed_normalizations : List (String × List ℤ)) :
    PyVal :=
  PyVal.pyList (failed_normalizations.map Prod.fst)

/-- convert_failed_to_output_format (normalization.py lines 208-224) on a
dict: per entry sort and PMID-prefix the publications, then sort the
records by curie. -/
def convert_failed_to_output_format (failed : List (String × List ℤ)) :
    List (String × List String) :=
  sortOrd (fun a b => strLeB a.1 b.1)
    (failed.map (fun kv => (kv.1, (sortInt kv.2).map pmidCurie)))

/-- convert_failed_to_output_format as called dynamically: its first
statement iterates `failed_normalizations.items()`, so a list argument
raises AttributeError (`none`). -/
def convert_failed_to_output_format_dyn :
    PyVal → Option (List (String × List String))
  | PyVal.pyDict entries => some (convert_failed_to_output_format entries)
  | PyVal.pyList _ => none

/-- OmniCorpCleaner.write_failed_normalizations (clean_omnicorp.py lines
147-159): feeds the LIST returned by get_failed_normalizations into
convert_failed_to_output_format; `none` = the uncaught AttributeError, no
file written. (The `some` branch — the lines that would be written — is
unreachable.) -/
def OmniCorpCleaner.write_failed_normalizations
    (failed_normalizations : List (String × List ℤ)) : Option (List String) :=
  match convert_failed_to_output_format_dyn
      (get_failed_normalizations failed_normalizations) with
  | none => none
  | some failed_data => some (failed_data.map Prod.fst)

/-- SQLiteCleaner.write_failed_normalizations (sqlite_cleaner.py lines
104-116): when the failed dict is nonempty, write its keys sorted, one per
line; when it is empty, write nothing (no file is created, `none`). -/
def SQLiteCleaner.write_failed_normalizations
    (failed_normalizations_dict : List (String × List ℤ)) :
    Option (List String) :=
  if failed_normalizations_dict ≠ [] then
    some (sortStr (failed_normalizations_dict.map Prod.fst))
  else none

/-- The failure side-channel written by SQLiteCleaner.clean (sqlite_cleaner.py
lines 118-188): when Pass 1 yields an empty normalization mapping, clean
returns 0 before reaching the failure-file write; when Pass 2 raises an
uncaught KeyError, the run aborts before reaching it; otherwise
write_failed_normalizations runs. `none` = no failure file written. -/
def SQLiteCleaner.cleanFailFile (nm : List (String × String))
    (rows : List (String × List ℤ)) (failed : List (String × List ℤ)) :
    Option (List String) :=
  if nm = [] then none
  else if (sqlitePass2 nm rows).crashed then none
  else SQLiteCleaner.write_failed_normalizations failed

/-! ## Lemmas about the modelling primitives -/

theorem lexLe_total (a b : List Char) : lexLe a b = true ∨ lexLe b a = true := by
  induction a generalizing b with
  | nil => left; rfl
  | cons x xs ih =>
    cases b with
    | nil => right; rfl
    | cons y ys =>
      by_cases hxy : x = y
      · subst hxy
        simp only [lexLe, if_pos rfl]
        exact ih ys
      · rcases lt_or_gt_of_ne hxy with h | h
        · left; simp [lexLe, hxy, h]
        · right
          have hyx : y ≠ x := fun hc => hxy hc.symm
          simp [lexLe, hyx, h]

theorem lexLe_trans {a b c : List Char} (h1 : lexLe a b = true)
    (h2 : lexLe b c = true) : lexLe a c = true := by
  induction a generalizing b c with
  | nil => rfl
  | cons x xs ih =>
    cases b with
    | nil => simp [lexLe] at h1
    | cons y ys =>
      cases c with
      | nil => simp [lexLe] at h2
      | cons z zs =>
        by_cases hxy : x = y <;> by_cases hyz : y = z
        · subst hxy; subst hyz
          simp only [lexLe, if_pos rfl] at h1 h2 ⊢
          exact ih h1 h2
        · subst hxy
          simp only [lexLe, if_pos rfl] at h1
          simp only [lexLe, if_neg hyz, decide_eq_true_eq] at h2
          have hxz : x ≠ z := ne_of_lt h2
          simp [lexLe, hxz, h2]
        · simp only [lexLe, if_neg hxy, decide_eq_true_eq] at h1
          have hlt : x < z := hyz ▸ h1
          have hxz : x ≠ z := ne_of_lt hlt
          simp [lexLe, hxz, hlt]
        · simp only [lexLe, if_neg hxy, decide_eq_true_eq] at h1
          simp only [lexLe, if_neg hyz, decide_eq_true_eq] at h2
          have hlt : x < z := lt_trans h1 h2
          have hxz : x ≠ z := ne_of_lt hlt
          simp [lexLe, hxz, hlt]

theorem lexLe_antisymm {a b : List Char} (h1 : lexLe a b = true)
    (h2 : lexLe b a = true) : a = b := by
  induction a generalizing b with
  | nil =>
    cases b with
    | nil => rfl
    | cons y ys => simp [lexLe] at h2
  | cons x xs ih =>
    cases b with
    | nil => simp [lexLe] at h1
    | cons y ys =>
      by_cases hxy : x = y
      · subst hxy
        simp only [lexLe, if_pos rfl] at h1 h2
        exact congrArg (x :: ·) (ih h1 h2)
      · have hyx : y ≠ x := fun hc => hxy hc.symm
        simp only [lexLe, if_neg hxy, decide_eq_true_eq] at h1
        simp only [lexLe, if_neg hyx, decide_eq_true_eq] at h2
        exact absurd h2 (lt_asymm h1)

theorem strLeB_total (a b : String) : strLeB a b = true ∨ strLeB b a = true :=
  lexLe_total a.data b.data

theorem strLeB_trans {a b c : String} (h1 : strLeB a b = true)
    (h2 : strLeB b c = true) : strLeB a c = true :=
  lexLe_trans h1 h2

theorem strLeB_antisymm {a b : String} (h1 : strLeB a b = true)
    (h2 : strLeB b a = true) : a = b := by
  cases a; cases b
  exact congrArg String.mk (lexLe_antisymm h1 h2)

theorem intLe_total (a b : ℤ) : intLe a b = true ∨ intLe b a = true := by
  simp only [intLe, decide_eq_true_eq]
  exact le_total a b

theorem intLe_trans {a b c : ℤ} (h1 : intLe a b = true)
    (h2 : intLe b c = true) : intLe a c = true := by
  simp only [intLe, decide_eq_true_eq] at h1 h2 ⊢
  exact le_trans h1 h2

theorem intLe_antisymm {a b : ℤ} (h1 : intLe a b = true)
    (h2 : intLe b a = true) : a = b := by
  simp only [intLe, decide_eq_true_eq] at h1 h2
  exact le_antisymm h1 h2

theorem mem_insertOrd {α : Type} {le : α → α → Bool} {x z : α} {l : List α} :
    z ∈ insertOrd le x l ↔ z = x ∨ z ∈ l := by
  induction l with
  | nil => simp [insertOrd]
  | cons y ys ih =>
    simp only [insertOrd]
    split
    · simp [or_comm, or_assoc, or_left_comm]
    · simp only [List.mem_cons, ih]
      tauto

theorem perm_insertOrd {α : Type} (le : α → α → Bool) (x : α) (l : List α) :
    (insertOrd le x l).Perm (x :: l) := by
  induction l with
  | nil => simp [insertOrd]
  | cons y ys ih =>
    simp only [insertOrd]
    split
    · exact List.Perm.refl _
    · exact (ih.cons y).trans (List.Perm.swap x y ys)

theorem perm_sortOrd {α : Type} (le : α → α → Bool) (l : List α) :
    (sortOrd le l).Perm l := by
  induction l with
  | nil => exact List.Perm.refl _
  | cons x xs ih =>
    simp only [sortOrd, List.foldr_cons]
    exact (perm_insertOrd le x _).trans (ih.cons x)

theorem pairwise_insertOrd {α : Type} {le : α → α → Bool}
    (htot : ∀ a b, le a b = true ∨ le b a = true)
    (htrans : ∀ {a b c}, le a b = true → le b c = true → le a c = true)
    {x : α} {l : List α} (h : l.Pairwise (fun a b => le a b = true)) :
    (insertOrd le x l).Pairwise (fun a b => le a b = true) := by
  induction l with
  | nil => simp [insertOrd]
  | cons y ys ih =>
    rcases List.pairwise_cons.mp h with ⟨hy, hys⟩
    simp only [insertOrd]
    split
    · rename_i hxy
      refine List.pairwise_cons.mpr ⟨?_, h⟩
      intro b hb
      rcases List.mem_cons.mp hb with rfl | hb
      · exact hxy
      · exact htrans hxy (hy b hb)
    · rename_i hxy
      have hyx : le y x = true := by
        rcases htot x y with h1 | h1
        · exact absurd h1 hxy
        · exact h1
      refine List.pairwise_cons.mpr ⟨?_, ih hys⟩
      intro b hb
      rcases mem_insertOrd.mp hb with rfl | hb
      · exact hyx
      · exact hy b hb

theorem pairwise_sortOrd {α : Type} {le : α → α → Bool}
    (htot : ∀ a b, le a b = true ∨ le b a = true)
    (htrans : ∀ {a b c}, le a b = true → le b c = true → le a c = true)
    (l : List α) : (sortOrd le l).Pairwise (fun a b => le a b = true) := by
  induction l with
  | nil => simp [sortOrd]
  | cons x xs ih =>
    simp only [sortOrd, List.foldr_cons]
    exact pairwise_insertOrd htot htrans ih

theorem eq_of_perm_of_pairwise {α : Type} {le : α → α → Bool}
    (hanti : ∀ {a b}, le a b = true → le b a = true → a = b) :
    ∀ {l₁ l₂ : List α}, l₁.Perm l₂ →
      l₁.Pairwise (fun a b => le a b = true) →
      l₂.Pairwise (fun a b => le a b = true) → l₁ = l₂ := by
  intro l₁
  induction l₁ with
  | nil =>
    intro l₂ hp _ _
    exact (hp.nil_eq).symm ▸ rfl
  | cons x xs ih =>
    intro l₂ hp h1 h2
    cases l₂ with
    | nil => exact absurd hp.symm (by simp)
    | cons y ys =>
      rcases List.pairwise_cons.mp h1 with ⟨hx, hxs⟩
      rcases List.pairwise_cons.mp h2 with ⟨hy, hys⟩
      have hxy : x = y := by
        have hxmem : x ∈ y :: ys := hp.mem_iff.mp (List.mem_cons_self x xs)
        have hymem : y ∈ x :: xs := hp.mem_iff.mpr (List.mem_cons_self y ys)
        rcases List.mem_cons.mp hxmem with h | h
        · exact h
        · rcases List.mem_cons.mp hymem with h' | h'
          · exact h'.symm
          · exact hanti (hx y h') (hy x h)
      subst hxy
      have hp' := hp.cons_inv
      exact congrArg (x :: ·) (ih hp' hxs hys)

theorem mem_pySetAdd {α : Type} [DecidableEq α] {s : List α} {x y : α} :
    y ∈ pySetAdd s x ↔ y ∈ s ∨ y = x := by
  unfold pySetAdd
  split
  · rename_i hx
    constructor
    · exact Or.inl
    · rintro (h | rfl)
      · exact h
      · exact hx
  · simp

theorem nodup_pySetAdd {α : Type} [DecidableEq α] {s : List α} {x : α}
    (h : s.Nodup) : (pySetAdd s x).Nodup := by
  unfold pySetAdd
  split
  · exact h
  · rename_i hx
    simp [List.nodup_append, h, hx]

theorem toFinset_pySetAdd {α : Type} [DecidableEq α] (s : List α) (x : α) :
    (pySetAdd s x).toFinset = insert x s.toFinset := by
  ext z
  simp [mem_pySetAdd, or_comm]

theorem mem_pySetExtend {α : Type} [DecidableEq α] {s xs : List α} {y : α} :
    y ∈ pySetExtend s xs ↔ y ∈ s ∨ y ∈ xs := by
  induction xs generalizing s with
  | nil => simp [pySetExtend]
  | cons x rest ih =>
    simp only [pySetExtend, List.foldl_cons] at ih ⊢
    rw [ih, mem_pySetAdd]
    simp [or_comm, or_assoc, or_left_comm]

theorem nodup_pySetExtend {α : Type} [DecidableEq α] {s xs : List α}
    (h : s.Nodup) : (pySetExtend s xs).Nodup := by
  induction xs generalizing s with
  | nil => exact h
  | cons x rest ih =>
    simp only [pySetExtend, List.foldl_cons] at ih ⊢
    exact ih (nodup_pySetAdd h)

theorem toFinset_pySetExtend {α : Type} [DecidableEq α] (s xs : List α) :
    (pySetExtend s xs).toFinset = s.toFinset ∪ xs.toFinset := by
  ext z
  simp [mem_pySetExtend, List.mem_toFinset]

theorem sortInt_canonical {a b : List ℤ} (ha : a.Nodup) (hb : b.Nodup)
    (h : a.toFinset = b.toFinset) : sortInt a = sortInt b := by
  have hperm : a.Perm b := List.perm_of_nodup_nodup_toFinset_eq ha hb h
  have h1 := (perm_sortOrd intLe a).trans (hperm.trans (perm_sortOrd intLe b).symm)
  exact eq_of_perm_of_pairwise (fun h1 h2 => intLe_antisymm h1 h2) h1
    (pairwise_sortOrd intLe_total (fun h1 h2 => intLe_trans h1 h2) a)
    (pairwise_sortOrd intLe_total (fun h1 h2 => intLe_trans h1 h2) b)

theorem sortStr_canonical {a b : List String} (ha : a.Nodup) (hb : b.Nodup)
    (h : a.toFinset = b.toFinset) : sortStr a = sortStr b := by
  have hperm : a.Perm b := List.perm_of_nodup_nodup_toFinset_eq ha hb h
  have h1 := (perm_sortOrd strLeB a).trans (hperm.trans (perm_sortOrd strLeB b).symm)
  exact eq_of_perm_of_pairwise (fun h1 h2 => strLeB_antisymm h1 h2) h1
    (pairwise_sortOrd strLeB_total (fun h1 h2 => strLeB_trans h1 h2) a)
    (pairwise_sortOrd strLeB_total (fun h1 h2 => strLeB_trans h1 h2) b)

theorem lookup_eq_none_iff {β : Type} {m : List (String × β)} {k : String} :
    List.lookup k m = none ↔ k ∉ m.map Prod.fst := by
  induction m with
  | nil => simp
  | cons e rest ih =>
    rcases e with ⟨a, b⟩
    by_cases hk : k = a
    · subst hk
      simp [List.lookup]
    · simp [List.lookup, beq_false_of_ne hk, ih, hk]

theorem lookup_mem {β : Type} {m : List (String × β)} {k : String} {v : β}
    (h : List.lookup k m = some v) : (k, v) ∈ m := by
  induction m with
  | nil => simp [List.lookup] at h
  | cons e rest ih =>
    rcases e with ⟨a, b⟩
    by_cases hk : k = a
    · subst hk
      simp only [List.lookup, beq_self_eq_true, Option.some.injEq] at h
      subst h
      exact List.mem_cons_self _ _
    · simp only [List.lookup, beq_false_of_ne hk] at h
      exact List.mem_cons_of_mem _ (ih h)

theorem lookup_of_mem_nodup {β : Type} {m : List (String × β)} {k : String} {v : β}
    (hnd : (m.map Prod.fst).Nodup) (h : (k, v) ∈ m) : List.lookup k m = some v := by
  induction m with
  | nil => simp at h
  | cons e rest ih =>
    rcases e with ⟨a, b⟩
    simp only [List.map_cons, List.nodup_cons] at hnd
    rcases hnd with ⟨hna, hnrest⟩
    rcases List.mem_cons.mp h with heq | hmem
    · injection heq with h1 h2
      subst h1
      subst h2
      simp [List.lookup]
    · have hk : k ≠ a := by
        rintro rfl
        exact hna (List.mem_map.mpr ⟨(k, v), hmem, rfl⟩)
      simp only [List.lookup, beq_false_of_ne hk]
      exact ih hnrest hmem

theorem mem_keys_of_lookup {β : Type} {m : List (String × β)} {k : String} {v : β}
    (h : List.lookup k m = some v) : k ∈ m.map Prod.fst :=
  List.mem_map.mpr ⟨(k, v), lookup_mem h, rfl⟩

/-! ## Lemmas about the in-memory merge path -/

theorem dictAddPubs_lookup_self (m : List (String × List ℤ)) (k : String) (ps : List ℤ) :
    List.lookup k (dictAddPubs m k ps) =
      some (pySetExtend ((List.lookup k m).getD []) ps) := by
  induction m with
  | nil => simp [dictAddPubs, List.lookup]
  | cons e rest ih =>
    rcases e with ⟨a, b⟩
    by_cases h : a = k
    · subst h
      simp [dictAddPubs, List.lookup]
    · have hk : k ≠ a := fun hc => h hc.symm
      simp only [dictAddPubs, if_neg h, List.lookup, beq_false_of_ne hk]
      exact ih

theorem dictAddPubs_lookup_ne (m : List (String × List ℤ)) {c k : String}
    (ps : List ℤ) (h : c ≠ k) :
    List.lookup c (dictAddPubs m k ps) = List.lookup c m := by
  induction m with
  | nil => simp [dictAddPubs, List.lookup, beq_false_of_ne h]
  | cons e rest ih =>
    rcases e with ⟨a, b⟩
    by_cases ha : a = k
    · subst ha
      simp [dictAddPubs, List.lookup, beq_false_of_ne h]
    · by_cases hc : c = a
      · subst hc
        simp [dictAddPubs, if_neg ha, List.lookup]
      · simp only [dictAddPubs, if_neg ha, List.lookup, beq_false_of_ne hc]
        exact ih

theorem dictAddPubs_keys (m : List (String × List ℤ)) (k : String) (ps : List ℤ) :
    (dictAddPubs m k ps).map Prod.fst = pySetAdd (m.map Prod.fst) k := by
  induction m with
  | nil => simp [dictAddPubs, pySetAdd]
  | cons e rest ih =>
    rcases e with ⟨a, b⟩
    by_cases h : a = k
    · subst h
      simp [dictAddPubs, pySetAdd]
    · have hk : k ≠ a := fun hc => h hc.symm
      simp only [dictAddPubs, if_neg h, List.map_cons, ih, pySetAdd, List.mem_cons]
      by_cases hmem : k ∈ rest.map Prod.fst
      · simp [hmem, hk]
      · simp [hmem, hk]

theorem dictAddPubs_values_nodup {m : List (String × List ℤ)} {k : String}
    {ps : List ℤ} (h : ∀ kv ∈ m, List.Nodup kv.2) :
    ∀ kv ∈ dictAddPubs m k ps, List.Nodup kv.2 := by
  induction m with
  | nil =>
    intro kv hkv
    simp only [dictAddPubs, List.mem_singleton] at hkv
    subst hkv
    exact nodup_pySetExtend List.nodup_nil
  | cons e rest ih =>
    intro kv hkv
    by_cases he : e.1 = k
    · simp only [dictAddPubs, if_pos he, List.mem_cons] at hkv
      rcases hkv with rfl | hkv
      · exact nodup_pySetExtend (h e (List.mem_cons_self _ _))
      · exact h kv (List.mem_cons_of_mem _ hkv)
    · simp only [dictAddPubs, if_neg he, List.mem_cons] at hkv
      rcases hkv with rfl | hkv
      · exact h kv (List.mem_cons_self _ _)
      · exact ih (fun x hx => h x (List.mem_cons_of_mem _ hx)) kv hkv

theorem dictAddOrig_lookup_self (m : List (String × List String)) (k v : String) :
    List.lookup k (dictAddOrig m k v) =
      some ((List.lookup k m).getD [] ++ [v]) := by
  induction m with
  | nil => simp [dictAddOrig, List.lookup]
  | cons e rest ih =>
    rcases e with ⟨a, b⟩
    by_cases h : a = k
    · subst h
      simp [dictAddOrig, List.lookup]
    · have hk : k ≠ a := fun hc => h hc.symm
      simp only [dictAddOrig, if_neg h, List.lookup, beq_false_of_ne hk]
      exact ih

theorem dictAddOrig_lookup_ne (m : List (String × List String)) {c k : String}
    (v : String) (h : c ≠ k) :
    List.lookup c (dictAddOrig m k v) = List.lookup c m := by
  induction m with
  | nil => simp [dictAddOrig, List.lookup, beq_false_of_ne h]
  | cons e rest ih =>
    rcases e with ⟨a, b⟩
    by_cases ha : a = k
    · subst ha
      simp [dictAddOrig, List.lookup, beq_false_of_ne h]
    · by_cases hc : c = a
      · subst hc
        simp [dictAddOrig, if_neg ha, List.lookup]
      · simp only [dictAddOrig, if_neg ha, List.lookup, beq_false_of_ne hc]
        exact ih

theorem contributors_cons (kv : String × List ℤ) (rest : List (String × List ℤ))
    (nm : List (String × String)) (c : String) :
    contributors (kv :: rest) nm c =
      if List.lookup kv.1 nm = some c then kv :: contributors rest nm c
      else contributors rest nm c := by
  simp only [contributors, List.filter_cons]
  by_cases h : List.lookup kv.1 nm = some c
  · simp [h]
  · simp [h]

theorem pubsAccum_cons (init : List ℤ) (kv : String × List ℤ)
    (l : List (String × List ℤ)) :
    pubsAccum init (kv :: l) = pubsAccum (pySetExtend init kv.2) l := rfl

theorem pubsAccum_nodup {init : List ℤ} (h : init.Nodup)
    (l : List (String × List ℤ)) : (pubsAccum init l).Nodup := by
  induction l generalizing init with
  | nil => exact h
  | cons kv rest ih => exact ih (nodup_pySetExtend h)

theorem pubsAccum_toFinset (init : List ℤ) (l : List (String × List ℤ)) :
    (pubsAccum init l).toFinset = init.toFinset ∪ (pubsOf l).toFinset := by
  induction l generalizing init with
  | nil => simp [pubsAccum, pubsOf]
  | cons kv rest ih =>
    rw [pubsAccum_cons, ih, toFinset_pySetExtend]
    have hp : pubsOf (kv :: rest) = kv.2 ++ pubsOf rest := rfl
    rw [hp, List.toFinset_append, Finset.union_assoc]

theorem mergeLoop_fst_lookup (nm : List (String × String)) :
    ∀ (l m : List (String × List ℤ)) (o : List (String × List String)) (c : String),
    List.lookup c (mergeLoop nm l (m, o)).1 =
      if contributors l nm c = [] then List.lookup c m
      else some (pubsAccum ((List.lookup c m).getD []) (contributors l nm c)) := by
  intro l
  induction l with
  | nil =>
    intro m o c
    simp [mergeLoop, contributors]
  | cons kv rest ih =>
    intro m o c
    rcases hl : List.lookup kv.1 nm with _ | n
    · have hc : ¬ List.lookup kv.1 nm = some c := by simp [hl]
      have hcontrib : contributors (kv :: rest) nm c = contributors rest nm c := by
        rw [contributors_cons, if_neg hc]
      have hstep : mergeLoop nm (kv :: rest) (m, o) = mergeLoop nm rest (m, o) := by
        simp only [mergeLoop, hl]
      rw [hstep, hcontrib]
      exact ih m o c
    · have hstep : mergeLoop nm (kv :: rest) (m, o) =
          mergeLoop nm rest (dictAddPubs m n kv.2, dictAddOrig o n kv.1) := by
        simp only [mergeLoop, hl]
      by_cases hcn : n = c
      · subst hcn
        have hcontrib : contributors (kv :: rest) nm n = kv :: contributors rest nm n := by
          rw [contributors_cons, if_pos hl]
        rw [hstep, hcontrib, ih, dictAddPubs_lookup_self]
        by_cases hrest : contributors rest nm n = []
        · rw [hrest]
          simp [pubsAccum]
        · have hne : ¬ (kv :: contributors rest nm n) = [] := by simp
          rw [if_neg hrest, if_neg hne, pubsAccum_cons]
          simp
      · have hc : ¬ List.lookup kv.1 nm = some c := by
          rw [hl]
          exact fun hcon => hcn (Option.some_inj.mp hcon)
        have hcontrib : contributors (kv :: rest) nm c = contributors rest nm c := by
          rw [contributors_cons, if_neg hc]
        have hck : c ≠ n := fun hcc => hcn hcc.symm
        rw [hstep, hcontrib, ih, dictAddPubs_lookup_ne m kv.2 hck]

theorem mergeLoop_snd_lookup (nm : List (String × String)) :
    ∀ (l m : List (String × List ℤ)) (o : List (String × List String)) (c : String),
    List.lookup c (mergeLoop nm l (m, o)).2 =
      if contributors l nm c = [] then List.lookup c o
      else some ((List.lookup c o).getD [] ++ (contributors l nm c).map Prod.fst) := by
  intro l
  induction l with
  | nil =>
    intro m o c
    simp [mergeLoop, contributors]
  | cons kv rest ih =>
    intro m o c
    rcases hl : List.lookup kv.1 nm with _ | n
    · have hc : ¬ List.lookup kv.1 nm = some c := by simp [hl]
      have hcontrib : contributors (kv :: rest) nm c = contributors rest nm c := by
        rw [contributors_cons, if_neg hc]
      have hstep : mergeLoop nm (kv :: rest) (m, o) = mergeLoop nm rest (m, o) := by
        simp only [mergeLoop, hl]
      rw [hstep, hcontrib]
      exact ih m o c
    · have hstep : mergeLoop nm (kv :: rest) (m, o) =
          mergeLoop nm rest (dictAddPubs m n kv.2, dictAddOrig o n kv.1) := by
        simp only [mergeLoop, hl]
      by_cases hcn : n = c
      · subst hcn
        have hcontrib : contributors (kv :: rest) nm n = kv :: contributors rest nm n := by
          rw [contributors_cons, if_pos hl]
        rw [hstep, hcontrib, ih, dictAddOrig_lookup_self]
        by_cases hrest : contributors rest nm n = []
        · rw [hrest]
          simp
        · have hne : ¬ (kv :: contributors rest nm n) = [] := by simp
          rw [if_neg hrest, if_neg hne]
          simp
      · have hc : ¬ List.lookup kv.1 nm = some c := by
          rw [hl]
          exact fun hcon => hcn (Option.some_inj.mp hcon)
        have hcontrib : contributors (kv :: rest) nm c = contributors rest nm c := by
          rw [contributors_cons, if_neg hc]
        have hck : c ≠ n := fun hcc => hcn hcc.symm
        rw [hstep, hcontrib, ih, dictAddOrig_lookup_ne o kv.1 hck]

theorem mergeLoop_fst_keys_nodup (nm : List (String × String)) :
    ∀ (l m : List (String × List ℤ)) (o : List (String × List String)),
    ((m.map Prod.fst).Nodup) → (((mergeLoop nm l (m, o)).1.map Prod.fst).Nodup) := by
  intro l
  induction l with
  | nil => intro m o h; exact h
  | cons kv rest ih =>
    intro m o h
    rcases hl : List.lookup kv.1 nm with _ | n
    · simp only [mergeLoop, hl]
      exact ih m o h
    · simp only [mergeLoop, hl]
      refine ih _ _ ?_
      rw [dictAddPubs_keys]
      exact nodup_pySetAdd h

theorem mergeLoop_fst_values_nodup (nm : List (String × String)) :
    ∀ (l m : List (String × List ℤ)) (o : List (String × List String)),
    (∀ kv ∈ m, List.Nodup kv.2) →
    ∀ kv ∈ (mergeLoop nm l (m, o)).1, List.Nodup kv.2 := by
  intro l
  induction l with
  | nil => intro m o h; exact h
  | cons kv rest ih =>
    intro m o h
    rcases hl : List.lookup kv.1 nm with _ | n
    · simp only [mergeLoop, hl]
      exact ih m o h
    · simp only [mergeLoop, hl]
      exact ih _ _ (dictAddPubs_values_nodup h)

theorem countP_key_eq_zero {β : Type} {m : List (String × β)} {c : String}
    (h : c ∉ m.map Prod.fst) : List.countP (fun kv => kv.1 == c) m = 0 := by
  rw [List.countP_eq_zero]
  intro kv hkv hbeq
  rw [beq_iff_eq] at hbeq
  exact h (List.mem_map.mpr ⟨kv, hkv, hbeq⟩)

theorem countP_key_eq_one {β : Type} {m : List (String × β)} {c : String} {v : β}
    (hnd : (m.map Prod.fst).Nodup) (h : (c, v) ∈ m) :
    List.countP (fun kv => kv.1 == c) m = 1 := by
  induction m with
  | nil => simp at h
  | cons e rest ih =>
    simp only [List.map_cons, List.nodup_cons] at hnd
    rcases hnd with ⟨hna, hnrest⟩
    rcases List.mem_cons.mp h with heq | hmem
    · have he : e.1 = c := by rw [← heq]
      have hz : List.countP (fun kv => kv.1 == c) rest = 0 :=
        countP_key_eq_zero (he ▸ hna)
      rw [List.countP_cons, hz, if_pos (by rw [he, beq_self_eq_true])]
    · have he : (e.1 == c) = false := by
        rw [beq_eq_false_iff_ne]
        rintro rfl
        exact hna (List.mem_map.mpr ⟨(e.1, v), hmem, rfl⟩)
      rw [List.countP_cons, ih hnrest hmem, he]
      simp

theorem pipeline_perm (ctp : List (String × List ℤ)) (nm : List (String × String)) :
    (pipelineOutput ctp nm).Perm
      ((merge_normalized_data ctp nm).1.map (fun kv =>
        { curie := kv.1
          original_curies :=
            sortStr ((List.lookup kv.1 (merge_normalized_data ctp nm).2).getD [])
          publications := (sortInt kv.2).map pmidCurie })) := by
  unfold pipelineOutput convert_to_output_format
  exact perm_sortOrd _ _

theorem record_eq_mergedRecord {ctp : List (String × List ℤ)}
    {nm : List (String × String)} {kv : String × List ℤ}
    (hkv : kv ∈ (merge_normalized_data ctp nm).1) :
    contributors ctp nm kv.1 ≠ [] ∧
    ({ curie := kv.1
       original_curies :=
         sortStr ((List.lookup kv.1 (merge_normalized_data ctp nm).2).getD [])
       publications := (sortInt kv.2).map pmidCurie } : Record) =
      mergedRecord ctp nm kv.1 := by
  have hdef : merge_normalized_data ctp nm = mergeLoop nm ctp ([], []) := rfl
  have hknd : (((merge_normalized_data ctp nm).1.map Prod.fst).Nodup) := by
    rw [hdef]
    exact mergeLoop_fst_keys_nodup nm ctp [] [] (by simp)
  have hlk : List.lookup kv.1 (merge_normalized_data ctp nm).1 = some kv.2 := by
    rcases kv with ⟨k, v⟩
    exact lookup_of_mem_nodup hknd hkv
  have hfst := mergeLoop_fst_lookup nm ctp [] [] kv.1
  have hsnd := mergeLoop_snd_lookup nm ctp [] [] kv.1
  rw [← hdef] at hfst hsnd
  by_cases hcon : contributors ctp nm kv.1 = []
  · rw [if_pos hcon] at hfst
    rw [hlk] at hfst
    simp [List.lookup] at hfst
  · rw [if_neg hcon] at hfst hsnd
    rw [hlk] at hfst
    have hv : kv.2 = pubsAccum [] (contributors ctp nm kv.1) := by
      have := Option.some_inj.mp hfst
      simpa [List.lookup] using this
    refine ⟨hcon, ?_⟩
    unfold mergedRecord
    have horig : (List.lookup kv.1 (merge_normalized_data ctp nm).2).getD [] =
        (contributors ctp nm kv.1).map Prod.fst := by
      rw [hsnd]
      simp [List.lookup]
    have hpubs : sortInt kv.2 = sortInt (pubsOf (contributors ctp nm kv.1)).dedup := by
      apply sortInt_canonical
      · rw [hv]
        exact pubsAccum_nodup List.nodup_nil _
      · exact List.nodup_dedup _
      · rw [hv, pubsAccum_toFinset]
        ext z
        simp [List.mem_dedup]
    rw [horig, hpubs]

theorem mem_pipelineOutput {ctp : List (String × List ℤ)}
    {nm : List (String × String)} {r : Record} :
    r ∈ pipelineOutput ctp nm ↔
      ∃ c, contributors ctp nm c ≠ [] ∧ r = mergedRecord ctp nm c := by
  constructor
  · intro h
    have h1 := (pipeline_perm ctp nm).mem_iff.mp h
    rcases List.mem_map.mp h1 with ⟨kv, hkv, hre⟩
    rcases record_eq_mergedRecord hkv with ⟨hcon, heq⟩
    exact ⟨kv.1, hcon, by rw [← hre, heq]⟩
  · rintro ⟨c, hcon, rfl⟩
    have hdef : merge_normalized_data ctp nm = mergeLoop nm ctp ([], []) := rfl
    have hfst := mergeLoop_fst_lookup nm ctp [] [] c
    rw [← hdef, if_neg hcon] at hfst
    have hmem : (c, pubsAccum ((List.lookup c ([] : List (String × List ℤ))).getD [])
        (contributors ctp nm c)) ∈ (merge_normalized_data ctp nm).1 :=
      lookup_mem hfst
    rcases record_eq_mergedRecord hmem with ⟨_, heq⟩
    apply (pipeline_perm ctp nm).mem_iff.mpr
    apply List.mem_map.mpr
    exact ⟨_, hmem, heq⟩

theorem pipeline_countP (ctp : List (String × List ℤ)) (nm : List (String × String))
    (c : String) :
    List.countP (fun r => r.curie == c) (pipelineOutput ctp nm) =
      if contributors ctp nm c = [] then 0 else 1 := by
  rw [(pipeline_perm ctp nm).countP_eq, List.countP_map]
  show List.countP (fun kv => kv.1 == c) (merge_normalized_data ctp nm).1 = _
  have hdef : merge_normalized_data ctp nm = mergeLoop nm ctp ([], []) := rfl
  have hknd : (((merge_normalized_data ctp nm).1.map Prod.fst).Nodup) := by
    rw [hdef]
    exact mergeLoop_fst_keys_nodup nm ctp [] [] (by simp)
  have hfst := mergeLoop_fst_lookup nm ctp [] [] c
  rw [← hdef] at hfst
  by_cases hcon : contributors ctp nm c = []
  · rw [if_pos hcon] at hfst ⊢
    refine countP_key_eq_zero (lookup_eq_none_iff.mp ?_)
    rw [hfst]
    rfl
  · rw [if_neg hcon] at hfst ⊢
    exact countP_key_eq_one hknd (lookup_mem hfst)

/-- C1: applying merge_normalized_data and then convert_to_output_format to a
candidate-to-publications table and a normalization mapping yields, for every
canonical identifier, exactly one record when at least one input candidate
maps to it (and none otherwise); that record's original_curies field is the
sorted list of precisely the candidates mapping to that canonical identifier,
and its publications field is the PMID-prefixed sorted deduplicated union of
exactly those candidates' publication lists. -/
theorem merge_then_convert_exact (ctp : List (String × List ℤ))
    (nm : List (String × String)) (c : String) :
    (List.countP (fun r => r.curie == c) (pipelineOutput ctp nm) =
      if contributors ctp nm c = [] then 0 else 1) ∧
    ∀ r ∈ pipelineOutput ctp nm, r.curie = c → r = mergedRecord ctp nm c := by
  refine ⟨pipeline_countP ctp nm c, ?_⟩
  intro r hr hc
  rcases mem_pipelineOutput.mp hr with ⟨c', _, rfl⟩
  have hcc : c' = c := hc
  rw [hcc]

/-- Witness for merge_then_convert_exact at the spec's concrete scenario
(testable property 6 of the spec). -/
theorem merge_then_convert_exact_witness :
    List.countP (fun r => r.curie == "CHEBI:15377")
      (pipelineOutput
        [("MESH:D014867", [12345, 67890]),
         ("CHEMBL.COMPOUND:CHEMBL1098659", [11111]),
         ("MONDO:0004976", [33333, 44444])]
        [("MESH:D014867", "CHEBI:15377"),
         ("CHEMBL.COMPOUND:CHEMBL1098659", "CHEBI:15377"),
         ("MONDO:0004976", "MONDO:0004976")]) = 1 ∧
    ({ curie := "CHEBI:15377"
       original_curies := ["CHEMBL.COMPOUND:CHEMBL1098659", "MESH:D014867"]
       publications := ["PMID:11111", "PMID:12345", "PMID:67890"] } : Record) =
      mergedRecord
        [("MESH:D014867", [12345, 67890]),
         ("CHEMBL.COMPOUND:CHEMBL1098659", [11111]),
         ("MONDO:0004976", [33333, 44444])]
        [("MESH:D014867", "CHEBI:15377"),
         ("CHEMBL.COMPOUND:CHEMBL1098659", "CHEBI:15377"),
         ("MONDO:0004976", "MONDO:0004976")]
        "CHEBI:15377" := by
  constructor
  · rw [(merge_then_convert_exact
      [("MESH:D014867", [12345, 67890]),
       ("CHEMBL.COMPOUND:CHEMBL1098659", [11111]),
       ("MONDO:0004976", [33333, 44444])]
      [("MESH:D014867", "CHEBI:15377"),
       ("CHEMBL.COMPOUND:CHEMBL1098659", "CHEBI:15377"),
       ("MONDO:0004976", "MONDO:0004976")] "CHEBI:15377").1]
    decide
  · exact (merge_then_convert_exact
      [("MESH:D014867", [12345, 67890]),
       ("CHEMBL.COMPOUND:CHEMBL1098659", [11111]),
       ("MONDO:0004976", [33333, 44444])]
      [("MESH:D014867", "CHEBI:15377"),
       ("CHEMBL.COMPOUND:CHEMBL1098659", "CHEBI:15377"),
       ("MONDO:0004976", "MONDO:0004976")] "CHEBI:15377").2
      { curie := "CHEBI:15377"
        original_curies := ["CHEMBL.COMPOUND:CHEMBL1098659", "MESH:D014867"]
        publications := ["PMID:11111", "PMID:12345", "PMID:67890"] }
      (by decide) (by decide)

/-! ## Candidate construction lemmas (C8) -/

theorem isDigit_not_whitespace {c : Char} (h : c.isDigit = true) :
    c.isWhitespace = false := by
  cases hw : c.isWhitespace with
  | false => rfl
  | true =>
    exfalso
    simp only [Char.isWhitespace, Bool.or_eq_true, decide_eq_true_eq] at hw
    rcases hw with ((rfl | rfl) | rfl) | rfl <;> exact absurd h (by decide)

theorem isDigit_ne_colon {c : Char} (h : c.isDigit = true) : c ≠ ':' := by
  rintro rfl
  exact absurd h (by decide)

/-- C8: for a bare all-digit concept id the constructed candidate is
NCBITaxon:{id} for type species, NCBIGene:{id} for gene, OMIM:{id} for
disease, UNKNOWN_CHEMICAL:{id} for chemical and UNKNOWN_{TYPE}:{id}
otherwise (types compared case-insensitively); the sentinel "-" or a blank
value yields no candidate; a value containing ":" passes through unchanged;
and concretely ("Species","4932") gives "NCBITaxon:4932" while
("Chemical","-") gives no candidate. -/
theorem concept_id_construction :
    (∀ (cid ty : String), cid.data ≠ [] → cid.data.all Char.isDigit = true →
      ((lowerStr ty = "species" →
          convert_concept_id_to_curie cid ty = some ("NCBITaxon:" ++ cid)) ∧
       (lowerStr ty = "gene" →
          convert_concept_id_to_curie cid ty = some ("NCBIGene:" ++ cid)) ∧
       (lowerStr ty = "disease" →
          convert_concept_id_to_curie cid ty = some ("OMIM:" ++ cid)) ∧
       (lowerStr ty = "chemical" →
          convert_concept_id_to_curie cid ty = some ("UNKNOWN_CHEMICAL:" ++ cid)) ∧
       (lowerStr ty ≠ "species" → lowerStr ty ≠ "gene" → lowerStr ty ≠ "disease" →
        lowerStr ty ≠ "chemical" →
          convert_concept_id_to_curie cid ty =
            some ("UNKNOWN_" ++ upperStr ty ++ ":" ++ cid)))) ∧
    (∀ (cid ty : String), cid = "-" ∨ cid.data.all Char.isWhitespace = true →
      convert_concept_id_to_curie cid ty = none) ∧
    (∀ (cid ty : String), cid ≠ "-" → ¬ cid.data.all Char.isWhitespace = true →
      ':' ∈ cid.data → convert_concept_id_to_curie cid ty = some cid) ∧
    convert_concept_id_to_curie "4932" "Species" = some "NCBITaxon:4932" ∧
    convert_concept_id_to_curie "-" "Chemical" = none := by
  refine ⟨?_, ?_, ?_, by decide, by decide⟩
  · intro cid ty hne hdig
    have hdash : cid ≠ "-" := by
      rintro rfl
      have : ('-').isDigit = true := by
        have hd : ("-" : String).data = ['-'] := rfl
        rw [hd] at hdig
        simpa using hdig
      exact absurd this (by decide)
    have hws : ¬ cid.data.all Char.isWhitespace = true := by
      intro hall
      rcases hd : cid.data with _ | ⟨c, cs⟩
      · exact hne hd
      · rw [hd] at hdig hall
        simp only [List.all_cons, Bool.and_eq_true] at hdig hall
        have := isDigit_not_whitespace hdig.1
        rw [hall.1] at this
        simp at this
    have h1 : ¬ (cid = "-" ∨ cid.data.all Char.isWhitespace = true) := by
      rintro (h | h)
      · exact hdash h
      · exact hws h
    have h2 : ¬ (':' ∈ cid.data) := by
      intro hmem
      have : (':').isDigit = true := by
        have := List.all_eq_true.mp hdig ':' hmem
        simpa using this
      exact absurd this (by decide)
    have h3 : cid.data ≠ [] ∧ cid.data.all Char.isDigit = true := ⟨hne, hdig⟩
    refine ⟨?_, ?_, ?_, ?_, ?_⟩
    · intro hty
      unfold convert_concept_id_to_curie
      rw [if_neg h1, if_neg h2, if_pos h3, if_pos hty]
    · intro hty
      have hsp : ¬ lowerStr ty = "species" := by rw [hty]; decide
      unfold convert_concept_id_to_curie
      rw [if_neg h1, if_neg h2, if_pos h3, if_neg hsp, if_pos hty]
    · intro hty
      have hsp : ¬ lowerStr ty = "species" := by rw [hty]; decide
      have hg : ¬ lowerStr ty = "gene" := by rw [hty]; decide
      unfold convert_concept_id_to_curie
      rw [if_neg h1, if_neg h2, if_pos h3, if_neg hsp, if_neg hg, if_pos hty]
    · intro hty
      have hsp : ¬ lowerStr ty = "species" := by rw [hty]; decide
      have hg : ¬ lowerStr ty = "gene" := by rw [hty]; decide
      have hd : ¬ lowerStr ty = "disease" := by rw [hty]; decide
      unfold convert_concept_id_to_curie
      rw [if_neg h1, if_neg h2, if_pos h3, if_neg hsp, if_neg hg, if_neg hd,
        if_pos hty]
    · intro hsp hg hd hc
      unfold convert_concept_id_to_curie
      rw [if_neg h1, if_neg h2, if_pos h3, if_neg hsp, if_neg hg, if_neg hd,
        if_neg hc]
  · intro cid ty h
    unfold convert_concept_id_to_curie
    rw [if_pos h]
  · intro cid ty hdash hws hmem
    have h1 : ¬ (cid = "-" ∨ cid.data.all Char.isWhitespace = true) := by
      rintro (h | h)
      · exact hdash h
      · exact hws h
    unfold convert_concept_id_to_curie
    rw [if_neg h1, if_pos hmem]

/-- Witness for concept_id_construction: both general branches applied at
concrete inputs. -/
theorem concept_id_construction_witness :
    convert_concept_id_to_curie "4932" "Species" = some "NCBITaxon:4932" ∧
    convert_concept_id_to_curie "9606" "CellLine" =
      some ("UNKNOWN_" ++ upperStr "CellLine" ++ ":" ++ "9606") ∧
    convert_concept_id_to_curie "MESH:D014867" "Chemical" = some "MESH:D014867" := by
  refine ⟨?_, ?_, ?_⟩
  · exact (concept_id_construction.1 "4932" "Species" (by decide) (by decide)).1
      (by decide)
  · exact (concept_id_construction.1 "9606" "CellLine" (by decide)
      (by decide)).2.2.2.2 (by decide) (by decide) (by decide) (by decide)
  · exact concept_id_construction.2.2.1 "MESH:D014867" "Chemical" (by decide)
      (by decide) (by decide)

/-! ## Retry client lemmas (C6) -/

theorem post_from_all_fail {α : Type} {mr : Nat} {base maxd : ℚ}
    {attempt : Nat → Option α} {jitter : Nat → ℚ}
    (hfail : ∀ j, j < mr → attempt j = none) :
    ∀ n i, n = mr - i →
      post_with_retry_from mr base maxd attempt jitter i =
        (none, (List.range' i (mr - 1 - i)).map
          (fun j => min (base * 2 ^ j) maxd + jitter j)) := by
  intro n
  induction n with
  | zero =>
    intro i hi
    have hge : ¬ i < mr := by omega
    rw [post_with_retry_from, dif_neg hge]
    have h0 : mr - 1 - i = 0 := by omega
    rw [h0]
    rfl
  | succ n ih =>
    intro i hi
    have hlt : i < mr := by omega
    rw [post_with_retry_from, dif_pos hlt, hfail i hlt]
    by_cases hmid : i < mr - 1
    · rw [if_pos hmid, ih (i + 1) (by omega)]
      have hn : mr - 1 - i = (mr - 1 - (i + 1)) + 1 := by omega
      rw [hn, List.range'_succ]
      rfl
    · rw [if_neg hmid, ih (i + 1) (by omega)]
      have h1 : mr - 1 - i = 0 := by omega
      have h2 : mr - 1 - (i + 1) = 0 := by omega
      rw [h1, h2]
      rfl

theorem post_from_success {α : Type} {mr : Nat} {base maxd : ℚ}
    {attempt : Nat → Option α} {jitter : Nat → ℚ} {k : Nat} {v : α}
    (hk : k < mr) (hfail : ∀ j, j < k → attempt j = none)
    (hsucc : attempt k = some v) :
    ∀ n i, n = k - i → i ≤ k →
      post_with_retry_from mr base maxd attempt jitter i =
        (some v, (List.range' i (k - i)).map
          (fun j => min (base * 2 ^ j) maxd + jitter j)) := by
  intro n
  induction n with
  | zero =>
    intro i hi hik
    have hieq : i = k := by omega
    subst hieq
    rw [post_with_retry_from, dif_pos hk, hsucc]
    simp
  | succ n ih =>
    intro i hi hik
    have hiklt : i < k := by omega
    have hlt : i < mr := by omega
    have hmid : i < mr - 1 := by omega
    rw [post_with_retry_from, dif_pos hlt, hfail i hiklt, if_pos hmid,
      ih (i + 1) (by omega) (by omega)]
    have hn : k - i = (k - (i + 1)) + 1 := by omega
    rw [hn, List.range'_succ]
    rfl

theorem post_from_sleep_bounds {α : Type} {mr : Nat} {base maxd : ℚ}
    {attempt : Nat → Option α} {jitter : Nat → ℚ}
    (hj : ∀ i, 0 ≤ jitter i ∧ jitter i ≤ min (base * 2 ^ i) maxd / 10) :
    ∀ n i, n = mr - i →
      ∀ s ∈ (post_with_retry_from mr base maxd attempt jitter i).2,
        ∃ j, min (base * 2 ^ j) maxd ≤ s ∧
          s ≤ min (base * 2 ^ j) maxd * (11 / 10) := by
  intro n
  induction n with
  | zero =>
    intro i hi
    have hge : ¬ i < mr := by omega
    rw [post_with_retry_from, dif_neg hge]
    intro s hs
    simp at hs
  | succ n ih =>
    intro i hi
    have hlt : i < mr := by omega
    rw [post_with_retry_from, dif_pos hlt]
    rcases hatt : attempt i with _ | v
    · by_cases hmid : i < mr - 1
      · rw [if_pos hmid]
        intro s hs
        rcases List.mem_cons.mp hs with rfl | hs
        · refine ⟨i, ?_, ?_⟩
          · have := (hj i).1
            linarith
          · have := (hj i).2
            linarith
        · exact ih (i + 1) (by omega) s hs
      · rw [if_neg hmid]
        exact ih (i + 1) (by omega)
    · intro s hs
      simp at hs

/-- C6: post_with_retry makes up to max_retries attempts, retrying after
any timeout, HTTP-error or transport-error failure; before each retry it
sleeps min(base_delay * 2 ** attempt, max_delay) plus the jitter drawn for
that attempt, and whenever the jitter stays within its uniform(0, 10% of
delay) range every sleep lies between the delay and 1.1 times the delay;
exhausting all attempts yields the terminal raise (modelled as none) and
not a result, after exactly max_retries - 1 sleeps. -/
theorem post_with_retry_spec {α : Type} (mr : Nat) (base maxd : ℚ)
    (attempt : Nat → Option α) (jitter : Nat → ℚ) :
    ((∀ i, i < mr → attempt i = none) →
      post_with_retry mr base maxd attempt jitter =
        (none, (List.range (mr - 1)).map
          (fun j => min (base * 2 ^ j) maxd + jitter j))) ∧
    (∀ k v, k < mr → (∀ j, j < k → attempt j = none) → attempt k = some v →
      post_with_retry mr base maxd attempt jitter =
        (some v, (List.range k).map
          (fun j => min (base * 2 ^ j) maxd + jitter j))) ∧
    ((∀ i, 0 ≤ jitter i ∧ jitter i ≤ min (base * 2 ^ i) maxd / 10) →
      ∀ s ∈ (post_with_retry mr base maxd attempt jitter).2,
        ∃ j, min (base * 2 ^ j) maxd ≤ s ∧
          s ≤ min (base * 2 ^ j) maxd * (11 / 10)) := by
  refine ⟨?_, ?_, ?_⟩
  · intro hfail
    unfold post_with_retry
    rw [post_from_all_fail hfail (mr - 0) 0 rfl]
    rw [List.range_eq_range']
    rfl
  · intro k v hk hfail hsucc
    unfold post_with_retry
    rw [post_from_success hk hfail hsucc (k - 0) 0 rfl (by omega)]
    rw [List.range_eq_range']
    rfl
  · intro hj
    unfold post_with_retry
    exact post_from_sleep_bounds hj (mr - 0) 0 rfl

/-- Witness for post_with_retry_spec: five attempts that all fail produce
the terminal failure after four exponentially backed-off sleeps, and a
success at the third attempt returns it after two sleeps. -/
theorem post_with_retry_spec_witness :
    post_with_retry 5 2 300 (fun _ => (none : Option Unit)) (fun _ => 0) =
      (none, [2, 4, 8, 16]) ∧
    post_with_retry 5 2 300
      (fun i => if i < 2 then none else some ()) (fun _ => 0) =
      (some (), [2, 4]) := by
  constructor
  · rw [(post_with_retry_spec 5 2 300 (fun _ => (none : Option Unit))
      (fun _ => 0)).1 (fun i _ => rfl)]
    norm_num [List.range_succ, min_def]
  · rw [(post_with_retry_spec 5 2 300
      (fun i => if i < 2 then none else some ()) (fun _ => 0)).2.1 2 ()
      (by decide) (fun j hj => by interval_cases j <;> rfl) (by decide)]
    norm_num [List.range_succ, min_def]

/-! ## Normalizer lemmas (C5, C7) -/

theorem mem_keys_dictSet {β : Type} {m : List (String × β)} {k c : String} {v : β} :
    c ∈ (dictSet m k v).map Prod.fst ↔ c ∈ m.map Prod.fst ∨ c = k := by
  induction m with
  | nil => simp [dictSet]
  | cons e rest ih =>
    by_cases h : e.1 = k
    · subst h
      simp [dictSet]
      tauto
    · simp only [dictSet, if_neg h, List.map_cons, List.mem_cons, ih]
      tauto

theorem lookup_dictSet_self {β : Type} (m : List (String × β)) (k : String) (v : β) :
    List.lookup k (dictSet m k v) = some v := by
  induction m with
  | nil => simp [dictSet, List.lookup]
  | cons e rest ih =>
    by_cases h : e.1 = k
    · simp [dictSet, if_pos h, List.lookup]
    · have hk : k ≠ e.1 := fun hc => h hc.symm
      simp only [dictSet, if_neg h, List.lookup, beq_false_of_ne hk]
      exact ih

theorem lookup_dictSet_ne {β : Type} (m : List (String × β)) {k c : String} (v : β)
    (h : c ≠ k) : List.lookup c (dictSet m k v) = List.lookup c m := by
  induction m with
  | nil => simp [dictSet, List.lookup, beq_false_of_ne h]
  | cons e rest ih =>
    by_cases he : e.1 = k
    · subst he
      simp [dictSet, List.lookup, beq_false_of_ne h]
    · by_cases hc : c = e.1
      · subst hc
        simp [dictSet, if_neg he, List.lookup]
      · simp only [dictSet, if_neg he, List.lookup, beq_false_of_ne hc]
        exact ih

theorem recordFail_classes (pd : List (String × List ℤ)) (st : NormState)
    (c : String) :
    (recordFail pd st c).normalized_biolink_classes = st.normalized_biolink_classes := by
  unfold recordFail
  split <;> rfl

theorem recordFail_failed_keys (pd : List (String × List ℤ)) (st : NormState)
    (c0 c : String) :
    c ∈ (recordFail pd st c0).failed_normalizations.map Prod.fst ↔
      c ∈ st.failed_normalizations.map Prod.fst ∨
        (c = c0 ∧ c0 ∈ pd.map Prod.fst) := by
  unfold recordFail
  rcases hl : List.lookup c0 pd with _ | ps
  · have : c0 ∉ pd.map Prod.fst := lookup_eq_none_iff.mp hl
    simp [this]
  · have : c0 ∈ pd.map Prod.fst := mem_keys_of_lookup hl
    simp only [mem_keys_dictSet, this, and_true]

theorem apiSuccess_some_of {r : String → Option (Option String × List String)}
    {c nid : String} {types : List String}
    (hr : r c = some (some nid, types)) (hnid : nid ≠ "") :
    apiSuccess (some r) c := by
  show (match r c with
    | some (some nid, _) => nid ≠ ""
    | some (none, _) => False
    | none => False)
  rw [hr]
  exact hnid

theorem not_apiSuccess_none_entry {r : String → Option (Option String × List String)}
    {c : String} (hr : r c = none) : ¬ apiSuccess (some r) c := by
  show ¬ (match r c with
    | some (some nid, _) => nid ≠ ""
    | some (none, _) => False
    | none => False)
  rw [hr]
  exact id

theorem not_apiSuccess_none_id {r : String → Option (Option String × List String)}
    {c : String} {types : List String} (hr : r c = some (none, types)) :
    ¬ apiSuccess (some r) c := by
  show ¬ (match r c with
    | some (some nid, _) => nid ≠ ""
    | some (none, _) => False
    | none => False)
  rw [hr]
  exact id

theorem not_apiSuccess_empty_id {r : String → Option (Option String × List String)}
    {c : String} {types : List String} (hr : r c = some (some "", types)) :
    ¬ apiSuccess (some r) c := by
  show ¬ (match r c with
    | some (some nid, _) => nid ≠ ""
    | some (none, _) => False
    | none => False)
  rw [hr]
  simp

theorem normalizeOne_fold_keys (r : String → Option (Option String × List String))
    (pd : List (String × List ℤ)) :
    ∀ (b : List String) (m0 : List (String × String)) (st : NormState) (c : String),
    (c ∈ ((b.foldl (normalizeOne r pd) (m0, st)).1.map Prod.fst) ↔
      c ∈ m0.map Prod.fst ∨ (c ∈ b ∧ apiSuccess (some r) c)) ∧
    (c ∈ ((b.foldl (normalizeOne r pd) (m0, st)).2.failed_normalizations.map Prod.fst) ↔
      c ∈ st.failed_normalizations.map Prod.fst ∨
        (c ∈ b ∧ ¬ apiSuccess (some r) c ∧ c ∈ pd.map Prod.fst)) := by
  intro b
  induction b with
  | nil =>
    intro m0 st c
    simp
  | cons c0 rest ih =>
    intro m0 st c
    rw [List.foldl_cons]
    have hfail : ∀ (hS : ¬ apiSuccess (some r) c0),
        normalizeOne r pd (m0, st) c0 = (m0, recordFail pd st c0) →
        (c ∈ ((rest.foldl (normalizeOne r pd)
            (normalizeOne r pd (m0, st) c0)).1.map Prod.fst) ↔
          c ∈ m0.map Prod.fst ∨ (c ∈ c0 :: rest ∧ apiSuccess (some r) c)) ∧
        (c ∈ ((rest.foldl (normalizeOne r pd)
            (normalizeOne r pd (m0, st) c0)).2.failed_normalizations.map Prod.fst) ↔
          c ∈ st.failed_normalizations.map Prod.fst ∨
            (c ∈ c0 :: rest ∧ ¬ apiSuccess (some r) c ∧ c ∈ pd.map Prod.fst)) := by
      intro hS hstep
      rw [hstep]
      rcases ih m0 (recordFail pd st c0) c with ⟨ih1, ih2⟩
      constructor
      · rw [ih1]
        simp only [List.mem_cons]
        constructor
        · rintro (h | ⟨h1, h2⟩)
          · exact Or.inl h
          · exact Or.inr ⟨Or.inr h1, h2⟩
        · rintro (h | ⟨rfl | h1, h2⟩)
          · exact Or.inl h
          · exact absurd h2 hS
          · exact Or.inr ⟨h1, h2⟩
      · rw [ih2, recordFail_failed_keys]
        simp only [List.mem_cons]
        constructor
        · rintro ((h | ⟨rfl, hpd⟩) | ⟨h1, h2, h3⟩)
          · exact Or.inl h
          · exact Or.inr ⟨Or.inl rfl, hS, hpd⟩
          · exact Or.inr ⟨Or.inr h1, h2, h3⟩
        · rintro (h | ⟨rfl | h1, h2, h3⟩)
          · exact Or.inl (Or.inl h)
          · exact Or.inl (Or.inr ⟨rfl, h3⟩)
          · exact Or.inr ⟨h1, h2, h3⟩
    rcases hr : r c0 with _ | ⟨onid, types⟩
    · exact hfail (not_apiSuccess_none_entry hr) (by simp [normalizeOne, hr])
    · rcases onid with _ | nid
      · exact hfail (not_apiSuccess_none_id hr) (by simp [normalizeOne, hr])
      · by_cases hnid : nid = ""
        · subst hnid
          exact hfail (not_apiSuccess_empty_id hr) (by simp [normalizeOne, hr])
        · have hS : apiSuccess (some r) c0 := apiSuccess_some_of hr hnid
          have hstep : normalizeOne r pd (m0, st) c0 =
              (dictSet m0 c0 nid,
               { st with normalized_biolink_classes :=
                  if types ≠ [] then
                    dictSet st.normalized_biolink_classes nid types
                  else st.normalized_biolink_classes }) := by
            simp [normalizeOne, hr, hnid]
          rw [hstep]
          rcases ih (dictSet m0 c0 nid)
            { st with normalized_biolink_classes :=
                if types ≠ [] then
                  dictSet st.normalized_biolink_classes nid types
                else st.normalized_biolink_classes } c with ⟨ih1, ih2⟩
          constructor
          · rw [ih1, mem_keys_dictSet]
            simp only [List.mem_cons]
            constructor
            · rintro ((h | rfl) | ⟨h1, h2⟩)
              · exact Or.inl h
              · exact Or.inr ⟨Or.inl rfl, hS⟩
              · exact Or.inr ⟨Or.inr h1, h2⟩
            · rintro (h | ⟨rfl | h1, h2⟩)
              · exact Or.inl (Or.inl h)
              · exact Or.inl (Or.inr rfl)
              · exact Or.inr ⟨h1, h2⟩
          · rw [ih2]
            simp only [List.mem_cons]
            constructor
            · rintro (h | ⟨h1, h2, h3⟩)
              · exact Or.inl h
              · exact Or.inr ⟨Or.inr h1, h2, h3⟩
            · rintro (h | ⟨rfl | h1, h2, h3⟩)
              · exact Or.inl h
              · exact absurd hS h2
              · exact Or.inr ⟨h1, h2, h3⟩

theorem recordFail_fold_keys (pd : List (String × List ℤ)) :
    ∀ (b : List String) (st : NormState) (c : String),
    c ∈ ((b.foldl (recordFail pd) st).failed_normalizations.map Prod.fst) ↔
      c ∈ st.failed_normalizations.map Prod.fst ∨
        (c ∈ b ∧ c ∈ pd.map Prod.fst) := by
  intro b
  induction b with
  | nil =>
    intro st c
    simp
  | cons c0 rest ih =>
    intro st c
    rw [List.foldl_cons, ih, recordFail_failed_keys]
    simp only [List.mem_cons]
    constructor
    · rintro ((h | ⟨rfl, hpd⟩) | ⟨h1, h2⟩)
      · exact Or.inl h
      · exact Or.inr ⟨Or.inl rfl, hpd⟩
      · exact Or.inr ⟨Or.inr h1, h2⟩
    · rintro (h | ⟨rfl | h1, h2⟩)
      · exact Or.inl (Or.inl h)
      · exact Or.inl (Or.inr ⟨rfl, h2⟩)
      · exact Or.inr ⟨h1, h2⟩

theorem normalize_curies_keys
    (resp : Option (String → Option (Option String × List String)))
    (b : List String) (pd : List (String × List ℤ)) (st : NormState) (c : String) :
    (c ∈ (normalize_curies resp b pd st).1.map Prod.fst ↔
      (c ∈ b ∧ apiSuccess resp c)) ∧
    (c ∈ (normalize_curies resp b pd st).2.failed_normalizations.map Prod.fst ↔
      c ∈ st.failed_normalizations.map Prod.fst ∨
        (c ∈ b ∧ ¬ apiSuccess resp c ∧ c ∈ pd.map Prod.fst)) := by
  rcases resp with _ | r
  · unfold normalize_curies
    constructor
    · simp [apiSuccess]
    · rw [recordFail_fold_keys]
      simp [apiSuccess]
  · unfold normalize_curies
    rcases normalizeOne_fold_keys r pd b [] st c with ⟨h1, h2⟩
    constructor
    · rw [h1]
      simp
    · rw [h2]

theorem dictUpdate_keys {β : Type} :
    ∀ (m2 m1 : List (String × β)) (c : String),
    c ∈ (dictUpdate m1 m2).map Prod.fst ↔
      c ∈ m1.map Prod.fst ∨ c ∈ m2.map Prod.fst := by
  intro m2
  induction m2 with
  | nil =>
    intro m1 c
    simp [dictUpdate]
  | cons e rest ih =>
    intro m1 c
    unfold dictUpdate at ih ⊢
    rw [List.foldl_cons, ih, mem_keys_dictSet]
    simp only [List.map_cons, List.mem_cons]
    tauto

theorem runBatches_keys
    (oracle : List String → Option (String → Option (Option String × List String)))
    (pd : List (String × List ℤ)) :
    ∀ (B : List (List String)) (m0 : List (String × String)) (st : NormState)
      (c : String),
    (c ∈ (runBatches oracle pd B (m0, st)).1.map Prod.fst ↔
      c ∈ m0.map Prod.fst ∨ ∃ b ∈ B, c ∈ b ∧ apiSuccess (oracle b) c) ∧
    (c ∈ (runBatches oracle pd B (m0, st)).2.failed_normalizations.map Prod.fst ↔
      c ∈ st.failed_normalizations.map Prod.fst ∨
        ∃ b ∈ B, c ∈ b ∧ ¬ apiSuccess (oracle b) c ∧ c ∈ pd.map Prod.fst) := by
  intro B
  induction B with
  | nil =>
    intro m0 st c
    simp [runBatches]
  | cons b rest ih =>
    intro m0 st c
    have hstep : runBatches oracle pd (b :: rest) (m0, st) =
        runBatches oracle pd rest
          (dictUpdate m0 (normalize_curies (oracle b) b pd st).1,
           (normalize_curies (oracle b) b pd st).2) := rfl
    rw [hstep]
    rcases ih (dictUpdate m0 (normalize_curies (oracle b) b pd st).1)
      (normalize_curies (oracle b) b pd st).2 c with ⟨ih1, ih2⟩
    rcases normalize_curies_keys (oracle b) b pd st c with ⟨hn1, hn2⟩
    constructor
    · rw [ih1, dictUpdate_keys, hn1]
      simp only [List.exists_mem_cons_iff]
      exact or_assoc
    · rw [ih2, hn2]
      simp only [List.exists_mem_cons_iff]
      exact or_assoc

theorem join_batchesOf {α : Type} (bs : Nat) (hbs : bs ≠ 0) :
    ∀ l : List α, (batchesOf bs l).flatten = l := by
  have haux : ∀ (n : Nat) (l : List α), l.length ≤ n → (batchesOf bs l).flatten = l := by
    intro n
    induction n with
    | zero =>
      intro l hl
      have hnil : l = [] := List.length_eq_zero.mp (Nat.le_zero.mp hl)
      subst hnil
      simp [batchesOf]
    | succ n ih =>
      intro l hl
      rcases l with _ | ⟨x, xs⟩
      · simp [batchesOf]
      · rw [batchesOf, dif_neg hbs, List.flatten_cons]
        have hlen : ((x :: xs).drop bs).length ≤ n := by
          simp only [List.length_drop, List.length_cons]
          simp only [List.length_cons] at hl
          omega
        rw [ih ((x :: xs).drop bs) hlen, List.take_append_drop]
  intro l
  exact haux l.length l le_rfl

theorem join_nodup_not_both {c : String} (P Q : List String → Prop)
    (hPQ : ∀ b, P b → Q b → False) :
    ∀ {B : List (List String)}, (B.flatten).Nodup →
      (∃ b ∈ B, c ∈ b ∧ P b) → (∃ b ∈ B, c ∈ b ∧ Q b) → False := by
  intro B
  induction B with
  | nil =>
    rintro _ ⟨b, hb, _⟩
    simp at hb
  | cons b rest ih =>
    intro hnd hP hQ
    rw [List.flatten_cons] at hnd
    rcases List.nodup_append.mp hnd with ⟨_, h2, hdisj⟩
    rcases hP with ⟨b1, hb1, hc1, hp1⟩
    rcases hQ with ⟨b2, hb2, hc2, hq2⟩
    rcases List.mem_cons.mp hb1 with heq1 | hb1
    · rcases List.mem_cons.mp hb2 with heq2 | hb2
      · exact hPQ b1 hp1 ((heq2.trans heq1.symm) ▸ hq2)
      · exact hdisj (heq1 ▸ hc1) (List.mem_flatten.mpr ⟨b2, hb2, hc2⟩)
    · rcases List.mem_cons.mp hb2 with heq2 | hb2
      · exact hdisj (heq2 ▸ hc2) (List.mem_flatten.mpr ⟨b1, hb1, hc1⟩)
      · exact ih h2 ⟨b1, hb1, hc1, hp1⟩ ⟨b2, hb2, hc2, hq2⟩

/-- C5: over a whole normalize_all_curies run on a candidate table whose
keys form a map, with any per-batch remote behaviour: the successful
mapping's keys and the failure set's keys are disjoint; a candidate sits in
the failure set exactly when it is an input candidate that ended up outside
the successful mapping (it never succeeded in any batch); and a batch whose
remote call exhausted all retries yields zero mappings while marking each
of its candidates carrying pmid data as failed, without aborting the run. -/
theorem normalize_all_failure_semantics
    (oracle : List String → Option (String → Option (Option String × List String)))
    (ctp : List (String × List ℤ)) (bs : Nat) (hbs : bs ≠ 0)
    (hnd : (ctp.map Prod.fst).Nodup) :
    (∀ c, ¬ (c ∈ (normalize_all_curies oracle ctp bs).1.map Prod.fst ∧
        c ∈ (normalize_all_curies oracle ctp bs).2.failed_normalizations.map Prod.fst)) ∧
    (∀ c, c ∈ (normalize_all_curies oracle ctp bs).2.failed_normalizations.map Prod.fst ↔
        (c ∈ ctp.map Prod.fst ∧
         c ∉ (normalize_all_curies oracle ctp bs).1.map Prod.fst)) ∧
    (∀ (curies : List String) (st : NormState),
      (normalize_curies none curies ctp st).1 = [] ∧
      ∀ c ∈ curies, c ∈ ctp.map Prod.fst →
        c ∈ (normalize_curies none curies ctp st).2.failed_normalizations.map Prod.fst) := by
  have hdef : normalize_all_curies oracle ctp bs =
      runBatches oracle ctp (batchesOf bs (ctp.map Prod.fst)) ([], ⟨[], []⟩) := rfl
  have hjoin : ((batchesOf bs (ctp.map Prod.fst)).flatten) = ctp.map Prod.fst :=
    join_batchesOf bs hbs _
  have hndj : ((batchesOf bs (ctp.map Prod.fst)).flatten).Nodup := by
    rw [hjoin]; exact hnd
  have hm : ∀ c, c ∈ (normalize_all_curies oracle ctp bs).1.map Prod.fst ↔
      ∃ b ∈ batchesOf bs (ctp.map Prod.fst), c ∈ b ∧ apiSuccess (oracle b) c := by
    intro c
    rw [hdef]
    rcases runBatches_keys oracle ctp (batchesOf bs (ctp.map Prod.fst)) [] ⟨[], []⟩ c
      with ⟨h1, _⟩
    rw [h1]
    simp
  have hf : ∀ c,
      c ∈ (normalize_all_curies oracle ctp bs).2.failed_normalizations.map Prod.fst ↔
      ∃ b ∈ batchesOf bs (ctp.map Prod.fst),
        c ∈ b ∧ ¬ apiSuccess (oracle b) c ∧ c ∈ ctp.map Prod.fst := by
    intro c
    rw [hdef]
    rcases runBatches_keys oracle ctp (batchesOf bs (ctp.map Prod.fst)) [] ⟨[], []⟩ c
      with ⟨_, h2⟩
    rw [h2]
    simp
  have hnotboth : ∀ c, c ∈ (normalize_all_curies oracle ctp bs).1.map Prod.fst →
      c ∈ (normalize_all_curies oracle ctp bs).2.failed_normalizations.map Prod.fst →
      False := by
    intro c h1 h2
    exact join_nodup_not_both (fun b => apiSuccess (oracle b) c)
      (fun b => ¬ apiSuccess (oracle b) c ∧ c ∈ ctp.map Prod.fst)
      (fun b hp hq => hq.1 hp) hndj
      ((hm c).mp h1)
      (by
        rcases (hf c).mp h2 with ⟨b, hb, hcb, hns, hk⟩
        exact ⟨b, hb, hcb, hns, hk⟩)
  refine ⟨fun c h => hnotboth c h.1 h.2, fun c => ?_, fun curies st => ⟨rfl, ?_⟩⟩
  · constructor
    · intro h2
      rcases (hf c).mp h2 with ⟨b, hb, hcb, hns, hk⟩
      exact ⟨hk, fun h1 => hnotboth c h1 h2⟩
    · rintro ⟨hck, hnm⟩
      rw [← hjoin] at hck
      rcases List.mem_flatten.mp hck with ⟨b, hb, hcb⟩
      refine (hf c).mpr ⟨b, hb, hcb, ?_, hjoin ▸ hck⟩
      intro hS
      exact hnm ((hm c).mpr ⟨b, hb, hcb, hS⟩)
  · intro c hc hck
    rcases normalize_curies_keys none curies ctp st c with ⟨_, h2⟩
    rw [h2]
    exact Or.inr ⟨hc, fun h => h, hck⟩

/-- Witness for normalize_all_failure_semantics: three candidates in batches
of two, where the first batch resolves only "A" and the second batch's
remote call fails entirely. -/
theorem normalize_all_failure_semantics_witness :
    (¬ ("A" ∈ (normalize_all_curies
        (fun b => if b = ["A", "B"]
          then some (fun c => if c = "A" then some (some "NA", []) else none)
          else none)
        [("A", [1]), ("B", [2]), ("C", [3])] 2).1.map Prod.fst ∧
      "A" ∈ (normalize_all_curies
        (fun b => if b = ["A", "B"]
          then some (fun c => if c = "A" then some (some "NA", []) else none)
          else none)
        [("A", [1]), ("B", [2]), ("C", [3])] 2).2.failed_normalizations.map Prod.fst)) ∧
    ("C" ∈ (normalize_all_curies
        (fun b => if b = ["A", "B"]
          then some (fun c => if c = "A" then some (some "NA", []) else none)
          else none)
        [("A", [1]), ("B", [2]), ("C", [3])] 2).2.failed_normalizations.map Prod.fst ↔
      ("C" ∈ ([("A", [1]), ("B", [2]), ("C", [3])] :
          List (String × List ℤ)).map Prod.fst ∧
       "C" ∉ (normalize_all_curies
        (fun b => if b = ["A", "B"]
          then some (fun c => if c = "A" then some (some "NA", []) else none)
          else none)
        [("A", [1]), ("B", [2]), ("C", [3])] 2).1.map Prod.fst)) := by
  constructor
  · exact (normalize_all_failure_semantics
      (fun b => if b = ["A", "B"]
        then some (fun c => if c = "A" then some (some "NA", []) else none)
        else none)
      [("A", [1]), ("B", [2]), ("C", [3])] 2 (by decide) (by decide)).1 "A"
  · exact (normalize_all_failure_semantics
      (fun b => if b = ["A", "B"]
        then some (fun c => if c = "A" then some (some "NA", []) else none)
        else none)
      [("A", [1]), ("B", [2]), ("C", [3])] 2 (by decide) (by decide)).2.1 "C"

theorem mem_of_getLast?_eq_some {α : Type} {l : List α} {a : α}
    (h : l.getLast? = some a) : a ∈ l := by
  induction l with
  | nil => simp at h
  | cons x xs ih =>
    cases xs with
    | nil =>
      simp at h
      simp [h]
    | cons y ys =>
      rw [List.getLast?_cons_cons] at h
      exact List.mem_cons_of_mem _ (ih h)

theorem lastTagWriter_cons_of_not
    {r : String → Option (Option String × List String)} {n c0 : String}
    {rest : List String} (h : writesTag r n c0 = false) :
    lastTagWriter r n (c0 :: rest) = lastTagWriter r n rest := by
  unfold lastTagWriter
  simp [List.filter_cons, h]

theorem lastTagWriter_isSome_of_filter
    {r : String → Option (Option String × List String)} {n : String}
    {rest : List String} {f1 : String} {frest : List String}
    (hfr : rest.filter (writesTag r n) = f1 :: frest) :
    ∃ ts, lastTagWriter r n rest = some ts := by
  have hne : rest.filter (writesTag r n) ≠ [] := by rw [hfr]; simp
  obtain ⟨lastc, hlastc⟩ : ∃ x, (rest.filter (writesTag r n)).getLast? = some x :=
    ⟨_, List.getLast?_eq_getLast_of_ne_nil hne⟩
  have hmem : lastc ∈ rest.filter (writesTag r n) := mem_of_getLast?_eq_some hlastc
  have hwlast : writesTag r n lastc = true := (List.mem_filter.mp hmem).2
  unfold lastTagWriter
  rw [hlastc]
  show ∃ ts, (match r lastc with
    | some (_, types) => some types
    | none => none) = some ts
  rcases hr : r lastc with _ | ⟨onid, types⟩
  · unfold writesTag at hwlast
    rw [hr] at hwlast
    simp at hwlast
  · exact ⟨types, rfl⟩

theorem normalizeOne_fold_classes (r : String → Option (Option String × List String))
    (pd : List (String × List ℤ)) :
    ∀ (b : List String) (acc : List (String × String) × NormState) (n : String),
    List.lookup n ((b.foldl (normalizeOne r pd) acc).2.normalized_biolink_classes) =
      match lastTagWriter r n b with
      | some ts => some ts
      | none => List.lookup n acc.2.normalized_biolink_classes := by
  intro b
  induction b with
  | nil =>
    intro acc n
    simp [lastTagWriter]
  | cons c0 rest ih =>
    intro acc n
    rw [List.foldl_cons]
    by_cases hw : writesTag r n c0 = true
    · have hdata : ∃ types, r c0 = some (some n, types) ∧ n ≠ "" ∧ types ≠ [] := by
        unfold writesTag at hw
        rcases hr : r c0 with _ | ⟨onid, types⟩
        · rw [hr] at hw
          simp at hw
        · rcases onid with _ | nid
          · rw [hr] at hw
            simp at hw
          · rw [hr] at hw
            simp only [Bool.and_eq_true, decide_eq_true_eq] at hw
            rcases hw with ⟨⟨hnid, hnn⟩, hty⟩
            exact ⟨types, by rw [hnn], hnn ▸ hnid, hty⟩
      rcases hdata with ⟨types, hr, hne, hty⟩
      have hstep : (normalizeOne r pd acc c0).2.normalized_biolink_classes =
          dictSet acc.2.normalized_biolink_classes n types := by
        simp [normalizeOne, hr, hne, hty]
      rw [ih (normalizeOne r pd acc c0) n, hstep]
      have hfc : (c0 :: rest).filter (writesTag r n) =
          c0 :: rest.filter (writesTag r n) := by
        simp [List.filter_cons, hw]
      cases hfr : rest.filter (writesTag r n) with
      | nil =>
        have h1 : lastTagWriter r n rest = none := by
          unfold lastTagWriter
          rw [hfr]
          rfl
        have h2 : lastTagWriter r n (c0 :: rest) = some types := by
          unfold lastTagWriter
          rw [hfc, hfr]
          simp [hr]
        rw [h1, h2, lookup_dictSet_self]
      | cons f1 frest =>
        have h2 : lastTagWriter r n (c0 :: rest) = lastTagWriter r n rest := by
          unfold lastTagWriter
          rw [hfc, hfr, List.getLast?_cons_cons]
        rw [h2]
        rcases lastTagWriter_isSome_of_filter hfr with ⟨ts, hts⟩
        rw [hts]
    · have hwf : writesTag r n c0 = false := by
        cases hwb : writesTag r n c0
        · rfl
        · exact absurd hwb hw
      have hC : List.lookup n ((normalizeOne r pd acc c0).2.normalized_biolink_classes) =
          List.lookup n acc.2.normalized_biolink_classes := by
        rcases hr : r c0 with _ | ⟨onid, types⟩
        · simp [normalizeOne, hr, recordFail_classes]
        · rcases onid with _ | nid
          · simp [normalizeOne, hr, recordFail_classes]
          · by_cases hnid : nid = ""
            · subst hnid
              simp [normalizeOne, hr, recordFail_classes]
            · by_cases hty : types = []
              · subst hty
                simp [normalizeOne, hr, hnid]
              · have hnn : nid ≠ n := by
                  intro hnn
                  have hwt : writesTag r n c0 = true := by
                    unfold writesTag
                    rw [hr]
                    have hn2 : n ≠ "" := hnn ▸ hnid
                    simp [hnn, hn2, hty]
                  rw [hwt] at hwf
                  simp at hwf
                have hstep : (normalizeOne r pd acc c0).2.normalized_biolink_classes =
                    dictSet acc.2.normalized_biolink_classes nid types := by
                  simp [normalizeOne, hr, hnid, hty]
                rw [hstep]
                exact lookup_dictSet_ne _ _ (fun hc => hnn hc.symm)
      rw [ih (normalizeOne r pd acc c0) n, hC, lastTagWriter_cons_of_not hwf]

/-- C7 (amended): when several candidates with semantic-type tags normalize
to the same canonical identifier, the recorded TypeMetadata entry is the tag
list of the last successfully processed candidate whose response carries a
non-empty tag list for that canonical identifier (last writer wins); a later
candidate with an empty tag list leaves the entry unchanged, and if no batch
candidate writes the entry it keeps its previous value. -/
theorem biolink_classes_last_writer
    (r : String → Option (Option String × List String)) (curies : List String)
    (pd : List (String × List ℤ)) (st : NormState) (n : String) :
    List.lookup n (normalize_curies (some r) curies pd st).2.normalized_biolink_classes =
      match lastTagWriter r n curies with
      | some ts => some ts
      | none => List.lookup n st.normalized_biolink_classes := by
  unfold normalize_curies
  exact normalizeOne_fold_classes r pd curies ([], st) n

/-- Counterexample to C7 as stated: candidates "A" then "B" both normalize
to "N" with tag lists ["t1"] and ["t2"]; the recorded entry for "N" is the
later candidate's ["t2"], not the first writer's ["t1"]. -/
theorem biolink_classes_first_writer_cx :
    List.lookup "N"
      (normalize_curies
        (some (fun c =>
          if c = "A" then some (some "N", ["t1"])
          else if c = "B" then some (some "N", ["t2"])
          else none))
        ["A", "B"] [] ⟨[], []⟩).2.normalized_biolink_classes = some ["t2"] ∧
    some ["t2"] ≠ some ["t1"] := by
  constructor
  · rfl
  · decide

/-! ## Streaming cleaner lemmas (C2, C3, C4) -/

theorem lookup_delKey_self {β : Type} (m : List (String × β)) (k : String) :
    List.lookup k (delKey m k) = none := by
  induction m with
  | nil => rfl
  | cons e rest ih =>
    by_cases h : e.1 = k
    · simp only [delKey, List.filter_cons, h, beq_self_eq_true, Bool.not_true]
      exact ih
    · have hk : k ≠ e.1 := fun hc => h hc.symm
      simp only [delKey, List.filter_cons, beq_false_of_ne h, Bool.not_false]
      simp only [List.lookup, beq_false_of_ne hk]
      exact ih

theorem lookup_delKey_ne {β : Type} (m : List (String × β)) {k c : String}
    (h : c ≠ k) : List.lookup c (delKey m k) = List.lookup c m := by
  induction m with
  | nil => rfl
  | cons e rest ih =>
    by_cases he : e.1 = k
    · simp only [delKey, List.filter_cons, he, beq_self_eq_true, Bool.not_true]
      have hc : c ≠ e.1 := he ▸ h
      simp only [List.lookup, beq_false_of_ne hc]
      exact ih
    · simp only [delKey, List.filter_cons, beq_false_of_ne he, Bool.not_false]
      by_cases hc : c = e.1
      · subst hc
        simp [List.lookup]
      · simp only [List.lookup, beq_false_of_ne hc]
        exact ih

theorem lookup_writeKey_self {β : Type} {m : List (String × β)} {k : String}
    {w : β} (v : β) (h : List.lookup k m = some w) :
    List.lookup k (writeKey m k v) = some v := by
  induction m with
  | nil => simp [List.lookup] at h
  | cons e rest ih =>
    rcases e with ⟨a, b⟩
    simp only [writeKey, List.map_cons]
    by_cases he : a = k
    · have hhead : (if (a, b).1 = k then (k, v) else (a, b)) = (k, v) := if_pos he
      rw [hhead]
      simp [List.lookup]
    · have hhead : (if (a, b).1 = k then (k, v) else (a, b)) = (a, b) := if_neg he
      rw [hhead]
      have hk : k ≠ a := fun hc => he hc.symm
      simp only [List.lookup, beq_false_of_ne hk] at h ⊢
      exact ih h

theorem lookup_writeKey_ne {β : Type} (m : List (String × β)) {k c : String}
    (v : β) (h : c ≠ k) : List.lookup c (writeKey m k v) = List.lookup c m := by
  induction m with
  | nil => rfl
  | cons e rest ih =>
    rcases e with ⟨a, b⟩
    simp only [writeKey, List.map_cons]
    by_cases he : a = k
    · have hhead : (if (a, b).1 = k then (k, v) else (a, b)) = (k, v) := if_pos he
      rw [hhead]
      have hc : c ≠ a := he ▸ h
      simp only [List.lookup, beq_false_of_ne h, beq_false_of_ne hc]
      exact ih
    · have hhead : (if (a, b).1 = k then (k, v) else (a, b)) = (a, b) := if_neg he
      rw [hhead]
      by_cases hc : c = a
      · subst hc
        simp [List.lookup]
      · simp only [List.lookup, beq_false_of_ne hc]
        exact ih

theorem mem_expectedOriginals_aux (n : String) :
    ∀ (nm : List (String × String)) (s : List String) (k : String),
    k ∈ nm.foldl (fun acc kv => if kv.2 = n then pySetAdd acc kv.1 else acc) s ↔
      k ∈ s ∨ (k, n) ∈ nm := by
  intro nm
  induction nm with
  | nil =>
    intro s k
    simp
  | cons e rest ih =>
    intro s k
    rw [List.foldl_cons]
    by_cases he : e.2 = n
    · rw [if_pos he, ih, mem_pySetAdd]
      constructor
      · rintro ((h | hk) | h)
        · exact Or.inl h
        · refine Or.inr (List.mem_cons.mpr (Or.inl ?_))
          rcases e with ⟨e1, e2⟩
          cases he
          cases hk
          rfl
        · exact Or.inr (List.mem_cons_of_mem _ h)
      · rintro (h | h)
        · exact Or.inl (Or.inl h)
        · rcases List.mem_cons.mp h with heq | h
          · refine Or.inl (Or.inr ?_)
            rcases e with ⟨e1, e2⟩
            injection heq with h1 h2
          · exact Or.inr h
    · rw [if_neg he, ih]
      constructor
      · rintro (h | h)
        · exact Or.inl h
        · exact Or.inr (List.mem_cons_of_mem _ h)
      · rintro (h | h)
        · exact Or.inl h
        · rcases List.mem_cons.mp h with heq | h
          · exfalso
            rcases e with ⟨e1, e2⟩
            injection heq with h1 h2
            exact he h2.symm
          · exact Or.inr h

theorem mem_expectedOriginals {nm : List (String × String)} {n k : String} :
    k ∈ expectedOriginals nm n ↔ (k, n) ∈ nm := by
  unfold expectedOriginals
  rw [mem_expectedOriginals_aux]
  simp

theorem nodup_expectedOriginals (nm : List (String × String)) (n : String) :
    (expectedOriginals nm n).Nodup := by
  unfold expectedOriginals
  have haux : ∀ (l : List (String × String)) (s : List String), s.Nodup →
      (l.foldl (fun acc kv => if kv.2 = n then pySetAdd acc kv.1 else acc) s).Nodup := by
    intro l
    induction l with
    | nil => intro s hs; exact hs
    | cons e rest ih =>
      intro s hs
      rw [List.foldl_cons]
      by_cases he : e.2 = n
      · rw [if_pos he]
        exact ih _ (nodup_pySetAdd hs)
      · rw [if_neg he]
        exact ih _ hs
  exact haux nm [] List.nodup_nil

theorem mem_nmValues_aux :
    ∀ (nm : List (String × String)) (s : List String) (n : String),
    n ∈ nm.foldl (fun acc kv => pySetAdd acc kv.2) s ↔
      n ∈ s ∨ ∃ k, (k, n) ∈ nm := by
  intro nm
  induction nm with
  | nil =>
    intro s n
    simp
  | cons e rest ih =>
    intro s n
    rw [List.foldl_cons, ih, mem_pySetAdd]
    constructor
    · rintro ((h | hn) | ⟨k, h⟩)
      · exact Or.inl h
      · refine Or.inr ⟨e.1, List.mem_cons.mpr (Or.inl ?_)⟩
        exact Prod.ext rfl hn
      · exact Or.inr ⟨k, List.mem_cons_of_mem _ h⟩
    · rintro (h | ⟨k, h⟩)
      · exact Or.inl (Or.inl h)
      · rcases List.mem_cons.mp h with heq | h
        · exact Or.inl (Or.inr (congrArg Prod.snd heq))
        · exact Or.inr ⟨k, h⟩

theorem mem_nmValues {nm : List (String × String)} {n : String} :
    n ∈ nmValues nm ↔ ∃ k, (k, n) ∈ nm := by
  unfold nmValues
  rw [mem_nmValues_aux]
  simp

theorem contributors_append (l1 l2 : List (String × List ℤ))
    (nm : List (String × String)) (c : String) :
    contributors (l1 ++ l2) nm c = contributors l1 nm c ++ contributors l2 nm c := by
  simp [contributors, List.filter_append]

theorem contributors_singleton_pos {row : String × List ℤ}
    {nm : List (String × String)} {n : String}
    (h : List.lookup row.1 nm = some n) : contributors [row] nm n = [row] := by
  simp [contributors, h]

theorem contributors_singleton_neg {row : String × List ℤ}
    {nm : List (String × String)} {n : String}
    (h : ¬ List.lookup row.1 nm = some n) : contributors [row] nm n = [] := by
  simp [contributors, h]

theorem contributors_key_mem {p : List (String × List ℤ)}
    {nm : List (String × String)} {n k : String}
    (h : k ∈ (contributors p nm n).map Prod.fst) : k ∈ p.map Prod.fst := by
  rcases List.mem_map.mp h with ⟨kv, hkv, rfl⟩
  exact List.mem_map.mpr ⟨kv, (List.mem_filter.mp hkv).1, rfl⟩

theorem contributors_key_nm {p : List (String × List ℤ)}
    {nm : List (String × String)} {n k : String}
    (h : k ∈ (contributors p nm n).map Prod.fst) : (k, n) ∈ nm := by
  rcases List.mem_map.mp h with ⟨kv, hkv, rfl⟩
  have := (List.mem_filter.mp hkv).2
  rw [beq_iff_eq] at this
  exact lookup_mem this

/-- Behaviour of one non-crashed Pass 2 step on a row whose candidate is in
the Pass 1 mapping and whose normalized curie still has tracker state. -/
theorem sqliteStep_cases (nm : List (String × String)) (st : StreamState)
    (row : String × List ℤ) (n : String) (seen : List String) (acc : List ℤ)
    (hcr : st.crashed = false) (hlk : List.lookup row.1 nm = some n)
    (htr : List.lookup n st.tracker = some (seen, acc)) :
    sqliteStep nm st row =
      (if (pySetAdd seen row.1).toFinset = (expectedOriginals nm n).toFinset
       then { tracker := delKey st.tracker n
              emitted := st.emitted ++
                [{ curie := n
                   original_curies := sortStr (expectedOriginals nm n)
                   publications :=
                     (sortInt (pySetExtend acc row.2)).map pmidCurie }]
              crashed := false }
       else { st with
              tracker := writeKey st.tracker n
                (pySetAdd seen row.1, pySetExtend acc row.2) }) := by
  simp only [sqliteStep, hcr, Bool.false_eq_true, if_false, hlk, htr]

/-- Behaviour of one PubTator Pass 2 step on a line whose candidate is in
the Pass 1 mapping and whose normalized curie still has tracker state. -/
theorem pubtatorStep_cases (nm : List (String × String)) (st : StreamState)
    (row : String × ℤ) (n : String) (seen : List String) (acc : List ℤ)
    (hlk : List.lookup row.1 nm = some n)
    (htr : List.lookup n st.tracker = some (seen, acc)) :
    pubtatorStep nm st row =
      (if (pySetAdd seen row.1).toFinset = (expectedOriginals nm n).toFinset
       then { tracker := delKey st.tracker n
              emitted := st.emitted ++
                [{ curie := n
                   original_curies := sortStr (expectedOriginals nm n)
                   publications :=
                     (sortInt (pySetAdd acc row.2)).map pmidCurie }]
              crashed := false }
       else { st with
              tracker := writeKey st.tracker n
                (pySetAdd seen row.1, pySetAdd acc row.2) }) := by
  simp only [pubtatorStep, hlk, htr]

/-- C3: in Pass 2 of the streaming cleaners, once a row's candidate resolves
through the Pass 1 mapping to a tracked normalized curie, the row's
contribution (the candidate into the seen-set, its publication data into the
accumulator) is added and the updated seen-set is compared with the
expected-originals set inverted from the Pass 1 mapping; exactly when the two
sets are equal, one record is emitted immediately — canonical identifier,
sorted expected-originals, accumulated publications sorted and
PMID:-prefixed — and the canonical identifier's tracker entry is deleted;
otherwise nothing is emitted and the tracker entry holds the updated pair. -/
theorem stream_step_emission (nm : List (String × String)) (st : StreamState)
    (row : String × List ℤ) (n : String) (seen : List String) (acc : List ℤ)
    (hcr : st.crashed = false) (hlk : List.lookup row.1 nm = some n)
    (htr : List.lookup n st.tracker = some (seen, acc)) :
    (((pySetAdd seen row.1).toFinset = (expectedOriginals nm n).toFinset →
        (sqliteStep nm st row).emitted = st.emitted ++
          [{ curie := n
             original_curies := sortStr (expectedOriginals nm n)
             publications := (sortInt (pySetExtend acc row.2)).map pmidCurie }] ∧
        List.lookup n (sqliteStep nm st row).tracker = none) ∧
      (¬ (pySetAdd seen row.1).toFinset = (expectedOriginals nm n).toFinset →
        (sqliteStep nm st row).emitted = st.emitted ∧
        List.lookup n (sqliteStep nm st row).tracker =
          some (pySetAdd seen row.1, pySetExtend acc row.2))) ∧
    (∀ prow : String × ℤ, List.lookup prow.1 nm = some n →
      ((pySetAdd seen prow.1).toFinset = (expectedOriginals nm n).toFinset →
        (pubtatorStep nm st prow).emitted = st.emitted ++
          [{ curie := n
             original_curies := sortStr (expectedOriginals nm n)
             publications := (sortInt (pySetAdd acc prow.2)).map pmidCurie }] ∧
        List.lookup n (pubtatorStep nm st prow).tracker = none) ∧
      (¬ (pySetAdd seen prow.1).toFinset = (expectedOriginals nm n).toFinset →
        (pubtatorStep nm st prow).emitted = st.emitted ∧
        List.lookup n (pubtatorStep nm st prow).tracker =
          some (pySetAdd seen prow.1, pySetAdd acc prow.2))) := by
  constructor
  · rw [sqliteStep_cases nm st row n seen acc hcr hlk htr]
    constructor
    · intro h
      rw [if_pos h]
      exact ⟨rfl, lookup_delKey_self st.tracker n⟩
    · intro h
      rw [if_neg h]
      exact ⟨rfl, lookup_writeKey_self _ htr⟩
  · intro prow hplk
    rw [pubtatorStep_cases nm st prow n seen acc hplk htr]
    constructor
    · intro h
      rw [if_pos h]
      exact ⟨rfl, lookup_delKey_self st.tracker n⟩
    · intro h
      rw [if_neg h]
      exact ⟨rfl, lookup_writeKey_self _ htr⟩

/-- Witness for `stream_step_emission` at nm = [("A","N")], initial state,
row ("A", [5]) (sqlite) and line ("A", 5) (pubtator): the single expected
candidate arrives, so the record is emitted at once and the tracker entry
for "N" disappears. -/
theorem stream_step_emission_witness :
    (sqliteStep [("A", "N")] (initStream [("A", "N")]) ("A", [5])).emitted =
      [{ curie := "N", original_curies := ["A"],
         publications := ["PMID:5"] }] ∧
    List.lookup "N"
      (sqliteStep [("A", "N")] (initStream [("A", "N")]) ("A", [5])).tracker =
      none ∧
    (pubtatorStep [("A", "N")] (initStream [("A", "N")]) ("A", 5)).emitted =
      [{ curie := "N", original_curies := ["A"],
         publications := ["PMID:5"] }] ∧
    List.lookup "N"
      (pubtatorStep [("A", "N")] (initStream [("A", "N")]) ("A", 5)).tracker =
      none := by
  have h := stream_step_emission [("A", "N")] (initStream [("A", "N")])
    ("A", [5]) "N" [] [] rfl (by decide) rfl
  have hs := h.1.1 (by decide)
  have hp := h.2 ("A", 5) (by decide)
  have hp2 := hp.1 (by decide)
  refine ⟨?_, hs.2, ?_, hp2.2⟩
  · rw [hs.1]; decide
  · rw [hp2.1]; decide

/-- C4: Pass 2's early eviction makes a later row carrying a candidate of an
already-emitted canonical identifier hit a missing progress-tracker entry;
in SQLiteCleaner.clean the KeyError is uncaught, so the run crashes (after
the canonical identifier's record was already written, which the witness
shows), while PubTatorCleaner's Pass 2 catches and logs it, silently
dropping that row's publication: the state is left unchanged. -/
theorem early_eviction_duplicate_behaviour (nm : List (String × String))
    (st : StreamState) (row : String × List ℤ) (prow : String × ℤ) (n : String)
    (hcr : st.crashed = false) (hlk : List.lookup row.1 nm = some n)
    (hplk : List.lookup prow.1 nm = some n)
    (htr : List.lookup n st.tracker = none) :
    sqliteStep nm st row = { st with crashed := true } ∧
    pubtatorStep nm st prow = st := by
  constructor
  · simp only [sqliteStep, hcr, Bool.false_eq_true, if_false, hlk, htr]
  · simp only [pubtatorStep, hplk, htr]

/-- Witness for `early_eviction_duplicate_behaviour`: candidate "A" occurs in
two source rows; the first completes and emits canonical "N", so the second
crashes the sqlite run (record already written) and is silently skipped by
the pubtator run (PMID 2 lost from the output). -/
theorem early_eviction_duplicate_behaviour_witness :
    (sqlitePass2 [("A", "N")] [("A", [1]), ("A", [2])]).crashed = true ∧
    (sqlitePass2 [("A", "N")] [("A", [1]), ("A", [2])]).emitted =
      [{ curie := "N", original_curies := ["A"], publications := ["PMID:1"] }] ∧
    (pubtatorPass2 [("A", "N")] [("A", 1), ("A", 2)]).crashed = false ∧
    (pubtatorPass2 [("A", "N")] [("A", 1), ("A", 2)]).emitted =
      [{ curie := "N", original_curies := ["A"], publications := ["PMID:1"] }] := by
  have h := early_eviction_duplicate_behaviour [("A", "N")]
    (sqliteStep [("A", "N")] (initStream [("A", "N")]) ("A", [1]))
    ("A", [2]) ("A", 2) "N" (by decide) (by decide) (by decide) (by decide)
  have hs : sqlitePass2 [("A", "N")] [("A", [1]), ("A", [2])] =
      { sqliteStep [("A", "N")] (initStream [("A", "N")]) ("A", [1]) with
        crashed := true } := h.1
  have hmid : pubtatorStep [("A", "N")] (initStream [("A", "N")]) ("A", 1) =
      sqliteStep [("A", "N")] (initStream [("A", "N")]) ("A", [1]) := by decide
  have hp : pubtatorPass2 [("A", "N")] [("A", 1), ("A", 2)] =
      sqliteStep [("A", "N")] (initStream [("A", "N")]) ("A", [1]) := by
    show pubtatorStep [("A", "N")]
      (pubtatorStep [("A", "N")] (initStream [("A", "N")]) ("A", 1)) ("A", 2) = _
    rw [hmid]
    exact h.2
  rw [hs, hp]
  exact ⟨rfl, by decide, by decide, by decide⟩

theorem pySetAdd_of_not_mem {α : Type} [DecidableEq α] {s : List α} {x : α}
    (h : x ∉ s) : pySetAdd s x = s ++ [x] := if_neg h

theorem contributors_keys_nodup {rows : List (String × List ℤ)}
    {nm : List (String × String)} {n : String}
    (h : (rows.map Prod.fst).Nodup) :
    ((contributors rows nm n).map Prod.fst).Nodup :=
  List.Nodup.sublist (List.Sublist.map Prod.fst (List.filter_sublist rows)) h

theorem lookup_eq_of_mem_nodup {β : Type} {m : List (String × β)} {k : String}
    {v : β} (hmem : (k, v) ∈ m) (hnd : (m.map Prod.fst).Nodup) :
    List.lookup k m = some v := by
  induction m with
  | nil => cases hmem
  | cons e rest ih =>
    rcases e with ⟨a, b⟩
    rcases List.mem_cons.mp hmem with heq | hm
    · injection heq with h1 h2
      subst h1; subst h2
      simp [List.lookup]
    · have ha : k ≠ a := by
        intro hka
        subst hka
        exact (List.nodup_cons.mp hnd).1
          (List.mem_map.mpr ⟨(k, v), hm, rfl⟩)
      simp only [List.lookup, beq_false_of_ne ha]
      exact ih hm (List.nodup_cons.mp hnd).2

theorem lookup_map_pair (v : List String × List ℤ) :
    ∀ (l : List String) (n : String),
    List.lookup n (l.map (fun m => (m, v))) =
      if n ∈ l then some v else none := by
  intro l
  induction l with
  | nil => intro n; rfl
  | cons a rest ih =>
    intro n
    by_cases ha : n = a
    · subst ha
      simp [List.lookup]
    · simp only [List.map_cons, List.lookup, beq_false_of_ne ha, ih,
        List.mem_cons]
      by_cases hr : n ∈ rest
      · rw [if_pos hr, if_pos (Or.inr hr)]
      · rw [if_neg hr, if_neg (by rintro (h | h) <;> [exact ha h; exact hr h])]

theorem expectedOriginals_toFinset_ne {nm : List (String × String)} {n : String}
    (h : n ∈ nmValues nm) :
    ¬ (([] : List String).toFinset = (expectedOriginals nm n).toFinset) := by
  rcases mem_nmValues.mp h with ⟨k, hk⟩
  intro hcon
  have : k ∈ (expectedOriginals nm n).toFinset :=
    List.mem_toFinset.mpr (mem_expectedOriginals.mpr hk)
  rw [← hcon] at this
  simp at this

theorem pubsAccum_append_single (init : List ℤ) (l : List (String × List ℤ))
    (row : String × List ℤ) :
    pubsAccum init (l ++ [row]) = pySetExtend (pubsAccum init l) row.2 := by
  unfold pubsAccum
  rw [List.foldl_append]
  rfl

theorem streamInv_init (nm : List (String × String)) :
    streamInv nm [] (initStream nm) := by
  refine ⟨rfl, ?_, ?_⟩
  · intro n
    show List.lookup n ((nmValues nm).map (fun m => (m, ([], [])))) = _
    rw [lookup_map_pair ([], []) (nmValues nm) n]
    have hc : contributors [] nm n = [] := rfl
    by_cases hn : n ∈ nmValues nm
    · rw [if_pos hn, if_pos ⟨hn, by
        rw [hc]
        exact expectedOriginals_toFinset_ne hn⟩]
      rw [hc]
      rfl
    · rw [if_neg hn, if_neg (fun hcon => hn hcon.1)]
  · intro rec
    show rec ∈ ([] : List Record) ↔ _
    simp only [List.not_mem_nil, false_iff]
    rintro ⟨n, hn, hcomp, -⟩
    have hc : contributors [] nm n = [] := rfl
    rw [hc] at hcomp
    exact expectedOriginals_toFinset_ne hn hcomp

theorem streamInv_step {nm : List (String × String)} {p : List (String × List ℤ)}
    {S : StreamState} (row : String × List ℤ)
    (hinv : streamInv nm p S) (hnew : row.1 ∉ p.map Prod.fst) :
    streamInv nm (p ++ [row]) (sqliteStep nm S row) := by
  obtain ⟨hcr, htr, hem⟩ := hinv
  rcases hl : List.lookup row.1 nm with _ | n0
  · have hstep : sqliteStep nm S row = S := by
      simp only [sqliteStep, hcr, Bool.false_eq_true, if_false, hl]
    have hc : ∀ n, contributors (p ++ [row]) nm n = contributors p nm n := by
      intro n
      rw [contributors_append, contributors_singleton_neg (by simp [hl]),
        List.append_nil]
    rw [hstep]
    refine ⟨hcr, ?_, ?_⟩
    · intro n
      rw [hc n]
      exact htr n
    · intro rec
      simp only [hc]
      exact hem rec
  · have hmemnm : (row.1, n0) ∈ nm := lookup_mem hl
    have hn0 : n0 ∈ nmValues nm := mem_nmValues.mpr ⟨row.1, hmemnm⟩
    have hcother : ∀ n, n ≠ n0 →
        contributors (p ++ [row]) nm n = contributors p nm n := by
      intro n hne
      rw [contributors_append, contributors_singleton_neg (by
        rw [hl]
        exact fun hcon => hne (Option.some_inj.mp hcon).symm), List.append_nil]
    have hcn0 : contributors (p ++ [row]) nm n0 = contributors p nm n0 ++ [row] := by
      rw [contributors_append, contributors_singleton_pos hl]
    have hkeysnotin : row.1 ∉ (contributors p nm n0).map Prod.fst :=
      fun h => hnew (contributors_key_mem h)
    have hincomp : ¬ ((contributors p nm n0).map Prod.fst).toFinset =
        (expectedOriginals nm n0).toFinset := by
      intro hcon
      have hrow1 : row.1 ∈ (expectedOriginals nm n0).toFinset :=
        List.mem_toFinset.mpr (mem_expectedOriginals.mpr hmemnm)
      rw [← hcon] at hrow1
      exact hkeysnotin (List.mem_toFinset.mp hrow1)
    have htrn0 : List.lookup n0 S.tracker =
        some ((contributors p nm n0).map Prod.fst,
              pubsAccum [] (contributors p nm n0)) := by
      rw [htr n0, if_pos ⟨hn0, hincomp⟩]
    have hseen2 : pySetAdd ((contributors p nm n0).map Prod.fst) row.1 =
        (contributors (p ++ [row]) nm n0).map Prod.fst := by
      rw [pySetAdd_of_not_mem hkeysnotin, hcn0, List.map_append]
      rfl
    have hacc2 : pySetExtend (pubsAccum [] (contributors p nm n0)) row.2 =
        pubsAccum [] (contributors (p ++ [row]) nm n0) := by
      rw [hcn0, pubsAccum_append_single]
    rw [sqliteStep_cases nm S row n0 _ _ hcr hl htrn0]
    by_cases hcomp :
        (pySetAdd ((contributors p nm n0).map Prod.fst) row.1).toFinset =
          (expectedOriginals nm n0).toFinset
    · rw [if_pos hcomp]
      have hcompnew : ((contributors (p ++ [row]) nm n0).map Prod.fst).toFinset =
          (expectedOriginals nm n0).toFinset := by
        rw [← hseen2]
        exact hcomp
      refine ⟨rfl, ?_, ?_⟩
      · intro n
        show List.lookup n (delKey S.tracker n0) =
          if n ∈ nmValues nm ∧
             ¬ ((contributors (p ++ [row]) nm n).map Prod.fst).toFinset =
               (expectedOriginals nm n).toFinset
          then some ((contributors (p ++ [row]) nm n).map Prod.fst,
                     pubsAccum [] (contributors (p ++ [row]) nm n))
          else none
        by_cases hne : n = n0
        · subst hne
          rw [lookup_delKey_self, if_neg (fun hcon => hcon.2 hcompnew)]
        · rw [lookup_delKey_ne S.tracker hne, hcother n hne]
          exact htr n
      · intro rec
        show rec ∈ S.emitted ++
          [{ curie := n0
             original_curies := sortStr (expectedOriginals nm n0)
             publications := (sortInt
               (pySetExtend (pubsAccum [] (contributors p nm n0)) row.2)).map
               pmidCurie }] ↔ _
        rw [hacc2, List.mem_append, List.mem_singleton, hem rec]
        constructor
        · rintro (⟨n, hn, hcompn, hrec⟩ | hrec)
          · have hne : n ≠ n0 := fun he => hincomp (he ▸ hcompn)
            exact ⟨n, hn, by rw [hcother n hne]; exact hcompn,
              by rw [hcother n hne]; exact hrec⟩
          · exact ⟨n0, hn0, hcompnew, hrec⟩
        · rintro ⟨n, hn, hcompn, hrec⟩
          by_cases hne : n = n0
          · subst hne
            right
            exact hrec
          · left
            rw [hcother n hne] at hcompn hrec
            exact ⟨n, hn, hcompn, hrec⟩
    · rw [if_neg hcomp]
      refine ⟨hcr, ?_, ?_⟩
      · intro n
        show List.lookup n (writeKey S.tracker n0
            (pySetAdd ((contributors p nm n0).map Prod.fst) row.1,
             pySetExtend (pubsAccum [] (contributors p nm n0)) row.2)) =
          if n ∈ nmValues nm ∧
             ¬ ((contributors (p ++ [row]) nm n).map Prod.fst).toFinset =
               (expectedOriginals nm n).toFinset
          then some ((contributors (p ++ [row]) nm n).map Prod.fst,
                     pubsAccum [] (contributors (p ++ [row]) nm n))
          else none
        by_cases hne : n = n0
        · subst hne
          have hcompnew : ¬ ((contributors (p ++ [row]) nm n).map
              Prod.fst).toFinset = (expectedOriginals nm n).toFinset := by
            rw [← hseen2]
            exact hcomp
          rw [lookup_writeKey_self _ htrn0, hseen2, hacc2,
            if_pos ⟨hn0, hcompnew⟩]
        · rw [lookup_writeKey_ne S.tracker _ hne, hcother n hne]
          exact htr n
      · intro rec
        show rec ∈ S.emitted ↔ _
        rw [hem rec]
        constructor
        · rintro ⟨n, hn, hcompn, hrec⟩
          have hne : n ≠ n0 := fun he => hincomp (he ▸ hcompn)
          exact ⟨n, hn, by rw [hcother n hne]; exact hcompn,
            by rw [hcother n hne]; exact hrec⟩
        · rintro ⟨n, hn, hcompn, hrec⟩
          by_cases hne : n = n0
          · subst hne
            exfalso
            rw [← hseen2] at hcompn
            exact hcomp hcompn
          · rw [hcother n hne] at hcompn hrec
            exact ⟨n, hn, hcompn, hrec⟩

theorem streamInv_fold {nm : List (String × String)} :
    ∀ (q p : List (String × List ℤ)) (S : StreamState),
    streamInv nm p S → (((p ++ q).map Prod.fst).Nodup) →
    streamInv nm (p ++ q) (q.foldl (sqliteStep nm) S) := by
  intro q
  induction q with
  | nil =>
    intro p S hinv hnd
    rw [List.append_nil]
    exact hinv
  | cons row q ih =>
    intro p S hinv hnd
    have hnew : row.1 ∉ p.map Prod.fst := by
      intro hmem
      rw [List.map_append] at hnd
      rcases List.nodup_append.mp hnd with ⟨-, -, hdisj⟩
      exact hdisj hmem (by simp)
    have hinv2 := streamInv_step row hinv hnew
    have hassoc : p ++ row :: q = (p ++ [row]) ++ q := by simp
    rw [hassoc] at hnd ⊢
    exact ih (p ++ [row]) (sqliteStep nm S row) hinv2 hnd

theorem streamInv_sqlitePass2 (nm : List (String × String))
    {rows : List (String × List ℤ)} (h : (rows.map Prod.fst).Nodup) :
    streamInv nm rows (sqlitePass2 nm rows) :=
  streamInv_fold rows [] (initStream nm) (streamInv_init nm) h

theorem contributors_complete {nm : List (String × String)}
    {rows : List (String × List ℤ)} {n : String}
    (hnm : (nm.map Prod.fst).Nodup)
    (hkeys : ∀ k ∈ nm.map Prod.fst, k ∈ rows.map Prod.fst)
    (hn : n ∈ nmValues nm) :
    ((contributors rows nm n).map Prod.fst).toFinset =
      (expectedOriginals nm n).toFinset := by
  ext k
  simp only [List.mem_toFinset]
  constructor
  · intro hk
    exact mem_expectedOriginals.mpr (contributors_key_nm hk)
  · intro hk
    have hkn : (k, n) ∈ nm := mem_expectedOriginals.mp hk
    have hlk : List.lookup k nm = some n := lookup_eq_of_mem_nodup hkn hnm
    have hkrows : k ∈ rows.map Prod.fst :=
      hkeys k (List.mem_map.mpr ⟨(k, n), hkn, rfl⟩)
    rcases List.mem_map.mp hkrows with ⟨kv, hkv, hk1⟩
    refine List.mem_map.mpr ⟨kv, List.mem_filter.mpr ⟨hkv, ?_⟩, hk1⟩
    rw [hk1, hlk]
    exact beq_self_eq_true _

theorem contributors_ne_nil_of_mem_nmValues {nm : List (String × String)}
    {rows : List (String × List ℤ)} {n : String}
    (hnm : (nm.map Prod.fst).Nodup)
    (hkeys : ∀ k ∈ nm.map Prod.fst, k ∈ rows.map Prod.fst)
    (hn : n ∈ nmValues nm) :
    contributors rows nm n ≠ [] := by
  rcases mem_nmValues.mp hn with ⟨k, hkn⟩
  have hlk : List.lookup k nm = some n := lookup_eq_of_mem_nodup hkn hnm
  have hkrows : k ∈ rows.map Prod.fst :=
    hkeys k (List.mem_map.mpr ⟨(k, n), hkn, rfl⟩)
  rcases List.mem_map.mp hkrows with ⟨kv, hkv, hk1⟩
  intro hcon
  have hmem : kv ∈ contributors rows nm n := by
    refine List.mem_filter.mpr ⟨hkv, ?_⟩
    rw [hk1, hlk]
    exact beq_self_eq_true _
  rw [hcon] at hmem
  cases hmem

theorem streamRecord_eq_mergedRecord {nm : List (String × String)}
    {rows : List (String × List ℤ)} {n : String}
    (hrows : (rows.map Prod.fst).Nodup)
    (hcomp : ((contributors rows nm n).map Prod.fst).toFinset =
      (expectedOriginals nm n).toFinset) :
    ({ curie := n
       original_curies := sortStr (expectedOriginals nm n)
       publications := (sortInt (pubsAccum [] (contributors rows nm n))).map
         pmidCurie } : Record) = mergedRecord rows nm n := by
  have horig : sortStr (expectedOriginals nm n) =
      sortStr ((contributors rows nm n).map Prod.fst) :=
    sortStr_canonical (nodup_expectedOriginals nm n)
      (contributors_keys_nodup hrows) hcomp.symm
  have hpubs : sortInt (pubsAccum [] (contributors rows nm n)) =
      sortInt (pubsOf (contributors rows nm n)).dedup := by
    refine sortInt_canonical (pubsAccum_nodup List.nodup_nil _)
      (List.nodup_dedup _) ?_
    rw [pubsAccum_toFinset]
    ext z
    simp [List.mem_dedup]
  unfold mergedRecord
  rw [horig, hpubs]

/-- C2 (amended): given a source whose rows have pairwise-distinct candidate
identifiers, a normalization mapping with pairwise-distinct keys, and —
additionally to the claim as stated — the condition that every key of the
normalization mapping occurs among the source's candidates (as holds in the
pipeline, where Pass 1 builds the mapping from the source's own candidates),
the two-pass streaming path completes without crashing and writes exactly
the records of the in-memory merge-then-convert path: membership in the two
outputs coincides, independent of emission order. Without the extra
condition the equivalence fails (`streaming_not_in_memory_cx`). -/
theorem streaming_matches_in_memory (nm : List (String × String))
    (rows : List (String × List ℤ))
    (hrows : (rows.map Prod.fst).Nodup)
    (hnm : (nm.map Prod.fst).Nodup)
    (hkeys : ∀ k ∈ nm.map Prod.fst, k ∈ rows.map Prod.fst) :
    (sqlitePass2 nm rows).crashed = false ∧
    ∀ rec : Record, rec ∈ (sqlitePass2 nm rows).emitted ↔
      rec ∈ pipelineOutput rows nm := by
  obtain ⟨hcr, htr, hem⟩ := streamInv_sqlitePass2 nm hrows
  refine ⟨hcr, ?_⟩
  intro rec
  rw [hem rec, mem_pipelineOutput]
  constructor
  · rintro ⟨n, hn, hcomp, rfl⟩
    exact ⟨n, contributors_ne_nil_of_mem_nmValues hnm hkeys hn,
      streamRecord_eq_mergedRecord hrows hcomp⟩
  · rintro ⟨c, hcne, rfl⟩
    obtain ⟨kv, hkv⟩ := List.exists_mem_of_ne_nil _ hcne
    have hcnm : (kv.1, c) ∈ nm :=
      contributors_key_nm (List.mem_map.mpr ⟨kv, hkv, rfl⟩)
    have hcval : c ∈ nmValues nm := mem_nmValues.mpr ⟨kv.1, hcnm⟩
    have hcomp := contributors_complete hnm hkeys hcval
    exact ⟨c, hcval, hcomp, (streamRecord_eq_mergedRecord hrows hcomp).symm⟩

/-- Counterexample to C2 as stated: with source {A: {1}} and mapping
{A: N, B: N} (key B absent from the source), the in-memory path emits the
record for N while the streaming path never completes N (it waits for B
forever) and emits nothing — no crash, just a silently missing record. -/
theorem streaming_not_in_memory_cx :
    (sqlitePass2 [("A", "N"), ("B", "N")] [("A", [1])]).crashed = false ∧
    (sqlitePass2 [("A", "N"), ("B", "N")] [("A", [1])]).emitted = [] ∧
    pipelineOutput [("A", [1])] [("A", "N"), ("B", "N")] =
      [{ curie := "N", original_curies := ["A"], publications := ["PMID:1"] }] := by
  decide

/-- Witness for `streaming_matches_in_memory`: source {A: {1}, B: {2}} with
mapping {A: N, B: N}; the streaming path finishes clean and agrees with the
in-memory path on the merged record for N. -/
theorem streaming_matches_in_memory_witness :
    (sqlitePass2 [("A", "N"), ("B", "N")] [("A", [1]), ("B", [2])]).crashed =
      false ∧
    ({ curie := "N", original_curies := ["A", "B"],
       publications := ["PMID:1", "PMID:2"] } ∈
        (sqlitePass2 [("A", "N"), ("B", "N")] [("A", [1]), ("B", [2])]).emitted ↔
      { curie := "N", original_curies := ["A", "B"],
        publications := ["PMID:1", "PMID:2"] } ∈
        pipelineOutput [("A", [1]), ("B", [2])] [("A", "N"), ("B", "N")]) := by
  have h := streaming_matches_in_memory [("A", "N"), ("B", "N")]
    [("A", [1]), ("B", [2])] (by decide) (by decide) (by decide)
  exact ⟨h.1, h.2 _⟩

/-- C9: IRI-to-CURIE conversion. Every branch of
OmniCorpToSQLiteConverter.convert_iri_to_curie either matches a known
pattern — returning the corresponding PREFIX:local-part CURIE and leaving
the unknown-pattern set untouched — or falls through to the unknown bucket,
returning the IRI unchanged and adding it to the unknown-pattern set; no
branch raises an error (the function is total). Concretely,
"http://purl.obolibrary.org/obo/CHEBI_17822" yields "CHEBI:17822" in both
converter variants, and an unmatched IRI comes back unchanged (and is
recorded in the unknown set by the sqlite-converter variant; the
OmniCorpCleaner variant only logs it). -/
theorem iri_conversion_spec :
    (∀ (iri : String) (u : List String),
      (OmniCorpToSQLiteConverter.convert_iri_to_curie iri u).2 = u ∨
      OmniCorpToSQLiteConverter.convert_iri_to_curie iri u =
        (iri, pySetAdd u iri)) ∧
    OmniCorpToSQLiteConverter.convert_iri_to_curie
      "http://purl.obolibrary.org/obo/CHEBI_17822" [] = ("CHEBI:17822", []) ∧
    OmniCorpCleaner.convert_iri_to_curie
      "http://purl.obolibrary.org/obo/CHEBI_17822" = "CHEBI:17822" ∧
    OmniCorpToSQLiteConverter.convert_iri_to_curie
      "http://example.org/foo" [] =
      ("http://example.org/foo", ["http://example.org/foo"]) ∧
    OmniCorpCleaner.convert_iri_to_curie "http://example.org/foo" =
      "http://example.org/foo" := by
  refine ⟨?_, by decide, by decide, by decide, by decide⟩
  intro iri u
  unfold OmniCorpToSQLiteConverter.convert_iri_to_curie
  repeat first
    | exact Or.inl rfl
    | exact Or.inr rfl
    | split

/-- C10: refuted — the failure side-channel is NOT written at the end of
every run that processed data. OmniCorpCleaner.write_failed_normalizations
always raises AttributeError (it passes the list from
get_failed_normalizations into convert_failed_to_output_format, which calls
`.items()` on it), so it never writes the file, for every failure set.
SQLiteCleaner.clean skips the write when Pass 1 produced no mapping (early
`return 0`) and when Pass 2 crashes on a duplicate candidate; only a clean
run with a nonempty mapping writes the sorted failed candidates. -/
theorem failed_file_not_always_written :
    (∀ failed : List (String × List ℤ),
      OmniCorpCleaner.write_failed_normalizations failed = none) ∧
    SQLiteCleaner.cleanFailFile [] [("A", [1])] [("A", [1])] = none ∧
    SQLiteCleaner.cleanFailFile [("A", "N")] [("A", [1]), ("A", [2])]
      [("B", [3])] = none ∧
    SQLiteCleaner.cleanFailFile [("A", "N")] [("A", [1])]
      [("B", [3]), ("A2", [4])] = some ["A2", "B"] := by
  exact ⟨fun failed => rfl, by decide, by decide, by decide⟩
